import Mathlib

/-! The ljwx-deploy evidence dashboard: the feed-to-view transformation.

A shallow embedding of the two dashboard scripts of the repository,
`src/pages/app.js` (namespace `Ljwx.Pages`) and `src/site/app.js`
(namespace `Ljwx.Site`), together with the fragment of JavaScript they
rely on: parsed JSON values, property access, truthiness, `||`, `??`,
`String(v)`, `===`, and the string and array methods that the scripts call.

Conventions.

* A JavaScript string is the list of its UTF-16 code units; `indexOf`,
  `slice`, `replaceAll` and the default `sort` order all work on code units.
* A JavaScript number is identified by the text `String` gives for it
  (`0` and `-0` both give `0`); no arithmetic on feed numbers occurs in the
  scripts, only truthiness, equality and conversion to text.
* A `TypeError` raised by the script is the `error` case of `Except`; this
  includes the `TypeError` of `String(v)` on an object that has an own
  property `toString` (a parsed value is never a function).
* The DOM is outside the model: a function that writes markup returns it.
-/

namespace Ljwx

/-! ## JavaScript values -/

/-- A UTF-16 code unit. -/
abbrev CodeUnit := Nat

/-- A JavaScript string, as the sequence of its code units. -/
abbrev JsString := List CodeUnit

/-- The code units of an ASCII string literal of the source. -/
def lit (s : String) : JsString := s.toList.map Char.toNat

/-- A value produced by `JSON.parse`, or `undefined` (the result of reading a
missing property). In `num shown`, `shown` is the text `String` gives for the
number. -/
inductive JsVal where
  | undefined
  | null
  | bool (b : Bool)
  | num (shown : JsString)
  | str (s : JsString)
  | arr (items : List JsVal)
  | obj (props : List (JsString × JsVal))

/-- The one kind of exception the scripts can raise on their own. -/
inductive JsError where
  | typeError
  deriving DecidableEq, Repr

/-- The decimal text of a natural number, such as an array index or length. -/
def natToStr (n : Nat) : JsString := (Nat.toDigits 10 n).map Char.toNat

/-- Truthiness: `undefined`, `null`, `false`, `0`, `NaN` and the empty string
are falsy, everything else is truthy. -/
def truthy : JsVal → Bool
  | .undefined => false
  | .null => false
  | .bool b => b
  | .num shown => shown != lit "0" && shown != lit "NaN"
  | .str s => !s.isEmpty
  | .arr _ => true
  | .obj _ => true

/-- A value is nullish when it is `undefined` or `null`. -/
def nullish : JsVal → Bool
  | .undefined => true
  | .null => true
  | _ => false

/-- The operator `a || b`. -/
def jsOr (a b : JsVal) : JsVal := if truthy a then a else b

/-- The operator `a ?? b`. -/
def coalesce (a b : JsVal) : JsVal := if nullish a then b else a

/-- The operator `a === b`. Arrays and objects are compared by reference; the
scripts only ever compare a feed value with a string or with a value parsed at
another place of the feed, so two arrays or objects are never the same
reference. -/
def strictEq : JsVal → JsVal → Bool
  | .undefined, .undefined => true
  | .null, .null => true
  | .bool a, .bool b => a == b
  | .num a, .num b => a == b && a != lit "NaN"
  | .str a, .str b => a == b
  | _, _ => false

/-- The comparison `SameValueZero` used by `Set` and by `includes`: like `===`
except that `NaN` equals itself. -/
def sameValueZero : JsVal → JsVal → Bool
  | .undefined, .undefined => true
  | .null, .null => true
  | .bool a, .bool b => a == b
  | .num a, .num b => a == b
  | .str a, .str b => a == b
  | _, _ => false

/-- The own property `k` of an object with the given properties. -/
def lookup (props : List (JsString × JsVal)) (k : JsString) : JsVal :=
  match props.find? (fun p => p.1 == k) with
  | some p => p.2
  | none => .undefined

/-- The property read `v.k`, for the property names read by the scripts (none
of them is inherited by strings, numbers, booleans or arrays): a `TypeError`
on `undefined` and `null`, the own property on an object, `undefined` on
every other value. -/
def getProp (v : JsVal) (k : JsString) : Except JsError JsVal :=
  match v with
  | .undefined => .error .typeError
  | .null => .error .typeError
  | .obj props => .ok (lookup props k)
  | _ => .ok .undefined

/-- The optional read `v?.k`: `undefined` when `v` is nullish. -/
def getOpt (v : JsVal) (k : JsString) : JsVal :=
  match v with
  | .obj props => lookup props k
  | _ => .undefined

/-- Whether an object with the given properties has an own property `k`. -/
def hasOwn (props : List (JsString × JsVal)) (k : JsString) : Bool :=
  props.any (fun p => p.1 == k)

mutual
/-- The conversion `String(v)`, which is also the conversion of a template
substitution and of an assignment to a text property of the DOM. An object
without an own `toString` inherits the one that answers `[object Object]`; an
own `toString` is a parsed value, hence not callable, the inherited `valueOf`
answers the object itself, and the conversion throws. An array is converted by
`join`. -/
def toStr : JsVal → Except JsError JsString
  | .undefined => .ok (lit "undefined")
  | .null => .ok (lit "null")
  | .bool b => .ok (if b then lit "true" else lit "false")
  | .num shown => .ok shown
  | .str s => .ok s
  | .arr items => joinItems items
  | .obj props =>
    if hasOwn props (lit "toString") then .error .typeError else .ok (lit "[object Object]")
/-- The text of an array: its items converted from left to right and joined by
commas, a nullish item giving the empty string. -/
def joinItems : List JsVal → Except JsError JsString
  | [] => .ok []
  | [x] =>
    match x with
    | .undefined => .ok []
    | .null => .ok []
    | y => toStr y
  | x :: y :: rest =>
    match (match x with
      | .undefined => Except.ok []
      | .null => Except.ok []
      | z => toStr z) with
    | .error e => .error e
    | .ok first =>
      match joinItems (y :: rest) with
      | .error e => .error e
      | .ok others => .ok (first ++ lit "," ++ others)
end

/-! ## String and array methods -/

/-- The search of `indexOf`, where `i` is the position of the head of the
string that is left. -/
def indexOfFrom (pat : JsString) : JsString → Nat → Option Nat
  | [], i => if pat.isEmpty then some i else none
  | c :: cs, i => if pat.isPrefixOf (c :: cs) then some i else indexOfFrom pat cs (i + 1)

/-- The method `s.indexOf(pat)`; `none` stands for `-1`. -/
def indexOf (s pat : JsString) : Option Nat := indexOfFrom pat s 0

/-- The method `xs.slice(a, b)` of strings and arrays for `0 ≤ a ≤ b`; both
bounds are clamped to the length. -/
def slice {α : Type} (xs : List α) (a b : Nat) : List α := (xs.take b).drop a

/-- The search of `Array.prototype.indexOf`, which compares with `===`. -/
def arrIndexOfFrom (x : JsVal) : List JsVal → Nat → Option Nat
  | [], _ => none
  | y :: ys, i => if strictEq y x then some i else arrIndexOfFrom x ys (i + 1)

/-- The method `xs.indexOf(x)` of arrays. -/
def arrIndexOf (xs : List JsVal) (x : JsVal) : Option Nat := arrIndexOfFrom x xs 0

/-- The scan of `replaceAll` for a non-empty pattern: `skip` code units of the
occurrence just replaced are still to be passed over. -/
def replaceAllAux (pat rep : JsString) : Nat → JsString → JsString
  | _, [] => []
  | skip + 1, _ :: cs => replaceAllAux pat rep skip cs
  | 0, c :: cs =>
    if pat.isPrefixOf (c :: cs) then rep ++ replaceAllAux pat rep (pat.length - 1) cs
    else c :: replaceAllAux pat rep 0 cs

/-- The method `s.replaceAll(pat, rep)` for a replacement text without `$`
(the replacement is then inserted as it is): the occurrences of `pat` are
found from left to right without overlap. An empty pattern matches before
every code unit and at the end. -/
def replaceAll (s pat rep : JsString) : JsString :=
  if pat.isEmpty then rep ++ s.flatMap (fun c => c :: rep)
  else replaceAllAux pat rep 0 s

/-- The method `xs.join(sep)` on an array of strings. -/
def join (sep : JsString) : List JsString → JsString
  | [] => []
  | [x] => x
  | x :: y :: rest => x ++ sep ++ join sep (y :: rest)

/-- The method `xs.filter(f)` for a callback that may throw: the first
exception ends the loop. -/
def filterE {α : Type} (f : α → Except JsError Bool) : List α → Except JsError (List α)
  | [] => .ok []
  | x :: xs =>
    match f x with
    | .error e => .error e
    | .ok keep =>
      match filterE f xs with
      | .error e => .error e
      | .ok rest => .ok (if keep then x :: rest else rest)

/-- The method `xs.map(f)` for a callback that may throw. -/
def mapE {α β : Type} (f : α → Except JsError β) : List α → Except JsError (List β)
  | [] => .ok []
  | x :: xs =>
    match f x with
    | .error e => .error e
    | .ok y =>
      match mapE f xs with
      | .error e => .error e
      | .ok rest => .ok (y :: rest)

/-! ## `src/pages/app.js` -/

namespace Pages

/-- The function `text` of `src/pages/app.js`. -/
def text (v : JsVal) : Except JsError JsString := do
  let s ← toStr (coalesce v (.str []))
  return replaceAll
    (replaceAll (replaceAll s (lit "&") (lit "&amp;")) (lit "<") (lit "&lt;"))
    (lit ">") (lit "&gt;")

/-- The function `digestFromHarbor` of `src/pages/app.js`. On a string
`indexOf` and `slice` are the string methods, on an array the array methods
(and `+` converts the slice to text); the other truthy values have no
`indexOf` and the call throws. -/
def digestFromHarbor (harbor : JsVal) : Except JsError JsVal :=
  if !truthy harbor then .ok (.str (lit "-"))
  else
    match harbor with
    | .str s =>
      match indexOf s (lit "@sha256:") with
      | none => .ok harbor
      | some idx => .ok (.str (lit "sha256:" ++ slice s (idx + 8) (idx + 8 + 16)))
    | .arr items =>
      match arrIndexOf items (.str (lit "@sha256:")) with
      | none => .ok harbor
      | some idx =>
        match toStr (.arr (slice items (idx + 8) (idx + 8 + 16))) with
        | .error e => .error e
        | .ok shown => .ok (.str (lit "sha256:" ++ shown))
    | _ => .error .typeError

/-- The function `smokeStatus` of `src/pages/app.js`. -/
def smokeStatus (rec : JsVal) : JsVal :=
  jsOr (getOpt (getOpt (getOpt rec (lit "tests")) (lit "smoke")) (lit "status"))
    (.str (lit "unknown"))

/-- The markup of one link: the template
`<a href="${href}" target="_blank" rel="noreferrer">${label}</a>`. -/
def anchor (href label : JsString) : JsString :=
  lit "<a href=\"" ++ href ++ lit "\" target=\"_blank\" rel=\"noreferrer\">" ++ label ++ lit "</a>"

/-- The statement `if (v) links.push(...)` that `linksHtml` has at three
places: the links it pushes, for the address `v` and the label of the link. -/
def pushLink (v : JsVal) (label : JsString) : Except JsError (List JsString) :=
  if truthy v then
    match text v with
    | .error e => .error e
    | .ok href => .ok [anchor href label]
  else .ok []

/-- The link pushed for the workflow run, if `rec?.source?.workflowRun` is
truthy. -/
def runLinks (rec : JsVal) : Except JsError (List JsString) :=
  pushLink (getOpt (getOpt rec (lit "source")) (lit "workflowRun")) (lit "run")

/-- The loop over the named approval slots, for the keys that are left: a link
labelled with the key for every key whose value is truthy. -/
def namedLinksFrom (approvals : JsVal) : List JsString → Except JsError (List JsString)
  | [] => .ok []
  | k :: ks =>
    match pushLink (getOpt approvals k) k with
    | .error e => .error e
    | .ok first =>
      match namedLinksFrom approvals ks with
      | .error e => .error e
      | .ok others => .ok (first ++ others)

/-- The loop over `["specPr", "archPr", "demoPr", "uatPr", "releasePr"]`. -/
def namedLinks (approvals : JsVal) : Except JsError (List JsString) :=
  namedLinksFrom approvals
    [lit "specPr", lit "archPr", lit "demoPr", lit "uatPr", lit "releasePr"]

/-- The loop `approvals.prs.forEach((pr, i) => ...)`, where `i` is the index of
the head of the entries that are left. -/
def prLinksFrom : List JsVal → Nat → Except JsError (List JsString)
  | [], _ => .ok []
  | pr :: rest, i =>
    match pushLink pr (lit "pr" ++ natToStr (i + 1)) with
    | .error e => .error e
    | .ok first =>
      match prLinksFrom rest (i + 1) with
      | .error e => .error e
      | .ok others => .ok (first ++ others)

/-- The links pushed for `approvals.prs`: none unless it is an array. -/
def prLinks (approvals : JsVal) : Except JsError (List JsString) :=
  match getOpt approvals (lit "prs") with
  | .arr prs => prLinksFrom prs 0
  | _ => .ok []

/-- The array `links` that `linksHtml` has built when it reaches its `return`. -/
def links (rec : JsVal) : Except JsError (List JsString) :=
  match runLinks rec with
  | .error e => .error e
  | .ok run =>
    match namedLinks (jsOr (getOpt rec (lit "approvals")) (.obj [])) with
    | .error e => .error e
    | .ok named =>
      match prLinks (jsOr (getOpt rec (lit "approvals")) (.obj [])) with
      | .error e => .error e
      | .ok prs => .ok (run ++ named ++ prs)

/-- The function `linksHtml` of `src/pages/app.js`. -/
def linksHtml (rec : JsVal) : Except JsError JsString :=
  match links rec with
  | .error e => .error e
  | .ok ls => .ok (if ls.length != 0 then join (lit " ") ls else lit "-")

/-- The callback of `allRecords.filter` in `render`, for the values `env` and
`test` of the two selectors. -/
def keeps (env test : JsString) (r : JsVal) : Except JsError Bool := do
  if truthy (.str env) then
    let e ← getProp r (lit "env")
    if !strictEq e (.str env) then return false
  if truthy (.str test) && !strictEq (smokeStatus r) (.str test) then return false
  return true

/-- The records that `render` keeps: `allRecords.filter(...)`. -/
def filter (env test : JsString) (allRecords : List JsVal) : Except JsError (List JsVal) :=
  filterE (keeps env test) allRecords

/-- The method `xs.includes(x)`. -/
def includes (xs : List JsVal) (x : JsVal) : Bool := xs.any (fun y => sameValueZero y x)

/-- The constant `klass` of `render`, from the resolved smoke status. -/
def klass (smoke : JsVal) : JsVal :=
  if includes [.str (lit "pass"), .str (lit "fail"), .str (lit "pending"), .str (lit "unknown")]
      smoke
  then smoke else .str (lit "unknown")

/-- The sixth cell of a row, the pill of the smoke status:
`<td><span class="pill ${klass}">${text(smoke)}</span></td>`. -/
def smokeCell (r : JsVal) : Except JsError JsString := do
  let cls ← toStr (klass (smokeStatus r))
  let shown ← text (smokeStatus r)
  return lit "<td><span class=\"pill " ++ cls ++ lit "\">" ++ shown ++ lit "</span></td>"

/-- The callback of `filtered.map` in `render`: the markup of one row. -/
def row (r : JsVal) : Except JsError JsString := do
  let evidenceId ← getProp r (lit "evidenceId")
  let cell1 ← text (jsOr evidenceId (.str (lit "-")))
  let service ← getProp r (lit "service")
  let cell2 ← text (jsOr service (.str (lit "-")))
  let env ← getProp r (lit "env")
  let cell3 ← text (jsOr env (.str (lit "-")))
  let digest ← digestFromHarbor (jsOr (getOpt (getOpt r (lit "image")) (lit "harbor")) (.str []))
  let cell4 ← text digest
  let cell5 ← text (jsOr (jsOr (getOpt (getOpt r (lit "deploy")) (lit "syncedAt"))
    (getOpt r (lit "promotedAt"))) (.str (lit "-")))
  let cell6 ← smokeCell r
  let cell7 ← linksHtml r
  return lit "<tr>\n        <td><code>" ++ cell1
    ++ lit "</code></td>\n        <td>" ++ cell2
    ++ lit "</td>\n        <td>" ++ cell3
    ++ lit "</td>\n        <td><code>" ++ cell4
    ++ lit "</code></td>\n        <td>" ++ cell5
    ++ lit "</td>\n        " ++ cell6
    ++ lit "\n        <td>" ++ cell7
    ++ lit "</td>\n      </tr>"

/-- What `render` writes: the markup of the table body and the status line. -/
structure View where
  rows : JsString
  meta : JsString

/-- The function `render` of `src/pages/app.js`, for the loaded records and the
values of the two selectors. -/
def render (env test : JsString) (allRecords : List JsVal) : Except JsError View := do
  let filtered ← filter env test allRecords
  let cells ← mapE row filtered
  let body := join [] cells
  return {
    rows := if body.isEmpty then lit "<tr><td colspan=\"7\">No records</td></tr>" else body
    meta := lit "records: " ++ natToStr filtered.length ++ lit " / "
      ++ natToStr allRecords.length }

/-- The assignment to `allRecords` in `main`: the parsed feed when it is an
array, and the empty array otherwise. -/
def recordsOf (parsed : JsVal) : List JsVal :=
  match parsed with
  | .arr items => items
  | _ => []

/-- One step of `new Set(xs)`: a value already in the set is not added again. -/
def setAdd (acc : List JsVal) (x : JsVal) : List JsVal :=
  if acc.any (fun y => sameValueZero y x) then acc else acc ++ [x]

/-- The elements of `new Set(xs)` in insertion order, as `Array.from` lists
them. -/
def setFrom (xs : List JsVal) : List JsVal := xs.foldl setAdd []

/-- The order on strings by code units, which `<` on strings and the default
`sort` use. -/
def strLt : JsString → JsString → Bool
  | _, [] => false
  | [], _ :: _ => true
  | a :: as, b :: bs => decide (a < b) || (a == b && strLt as bs)

/-- The default comparison of `sort`: `undefined` goes last, the other values
are converted to text and compared by code units. -/
def sortBefore (x y : JsVal) : Except JsError Bool :=
  match x, y with
  | .undefined, _ => .ok false
  | _, .undefined => .ok true
  | _, _ =>
    match toStr x with
    | .error e => .error e
    | .ok a =>
      match toStr y with
      | .error e => .error e
      | .ok b => .ok (strLt a b)

/-- The insertion of `x` into a sorted array, after the elements it does not
come before. -/
def sortInsert (x : JsVal) : List JsVal → Except JsError (List JsVal)
  | [] => .ok [x]
  | y :: ys =>
    match sortBefore x y with
    | .error e => .error e
    | .ok true => .ok (x :: y :: ys)
    | .ok false =>
      match sortInsert x ys with
      | .error e => .error e
      | .ok rest => .ok (y :: rest)

/-- The insertion sort of the elements that are left into the sorted array
`acc`. -/
def sortInto : List JsVal → List JsVal → Except JsError (List JsVal)
  | acc, [] => .ok acc
  | acc, x :: xs =>
    match sortInsert x acc with
    | .error e => .error e
    | .ok next => sortInto next xs

/-- The method `xs.sort()` without a comparison function. The method is
stable, so its result is the one of a stable insertion sort; an array of two
or more elements has every element compared, hence converted to text. -/
def sort (xs : List JsVal) : Except JsError (List JsVal) := sortInto [] xs

/-- The function `fillEnvOptions` of `src/pages/app.js`: the values of the
options it appends to the environment selector, in order. Assigning `env` to
`opt.value` converts it to a string. -/
def fillEnvOptions (allRecords : List JsVal) : Except JsError (List JsString) := do
  let envs ← mapE (fun r => getProp r (lit "env")) allRecords
  let sorted ← sort (setFrom (envs.filter truthy))
  mapE toStr sorted

end Pages

/-! ## `src/site/app.js` -/

namespace Site

/-- The function `escapeHtml` of `src/site/app.js`. -/
def escapeHtml (value : JsVal) : Except JsError JsString := do
  let s ← toStr value
  return replaceAll
    (replaceAll
      (replaceAll
        (replaceAll (replaceAll s (lit "&") (lit "&amp;")) (lit "<") (lit "&lt;"))
        (lit ">") (lit "&gt;"))
      (lit "\"") (lit "&quot;"))
    (lit "\x27") (lit "&#039;")

/-- The function `shortSha` of `src/site/app.js`. -/
def shortSha (value : JsVal) : Except JsError JsVal :=
  if !truthy value then .ok (.str (lit "-"))
  else
    match toStr value with
    | .error e => .error e
    | .ok s => .ok (.str (slice s 0 12))

/-- The function `smokeStatus` of `src/site/app.js`. -/
def smokeStatus (record : JsVal) : Except JsError JsVal := do
  let tests ← getProp record (lit "tests")
  let nested := getOpt (getOpt tests (lit "smoke")) (lit "status")
  if truthy nested then return nested
  let smoke ← getProp record (lit "smoke")
  let flat := getOpt smoke (lit "status")
  if truthy flat then return flat
  return .str (lit "unknown")

/-- The callback `(r) => smokeStatus(r) === "pass"` of `renderCards`. -/
def isSmokePass (r : JsVal) : Except JsError Bool := do
  let s ← smokeStatus r
  return strictEq s (.str (lit "pass"))

/-- The value `feed.records?.filter((r) => smokeStatus(r) === "pass").length ?? 0`
of `renderCards`, given `feed.records`. A value that is neither nullish nor
an array has no `filter` and the call throws. -/
def smokePassCount (records : JsVal) : Except JsError JsVal :=
  match records with
  | .undefined => .ok (.num (lit "0"))
  | .null => .ok (.num (lit "0"))
  | .arr items => do
    let passed ← filterE isSmokePass items
    return .num (natToStr passed.length)
  | _ => .error .typeError

/-- The array `cards` of `renderCards`: titles and values. -/
def cards (feed : JsVal) : Except JsError (List (JsString × JsVal)) := do
  let total ← getProp feed (lit "total_records")
  let summary ← getProp feed (lit "summary")
  let byStatus := getOpt summary (lit "by_status")
  let records ← getProp feed (lit "records")
  let smokePass ← smokePassCount records
  return [
    (lit "Total Records", coalesce total (.num (lit "0"))),
    (lit "Promoted", coalesce (getOpt byStatus (lit "promoted")) (.num (lit "0"))),
    (lit "Failed", coalesce (getOpt byStatus (lit "failed")) (.num (lit "0"))),
    (lit "Smoke Pass", smokePass)]

/-- The body of `cards.forEach` in `renderCards`: the text of the heading and,
by `String(value)`, the text of the paragraph of one card. -/
def cardText (card : JsString × JsVal) : Except JsError (JsString × JsString) :=
  match toStr card.2 with
  | .error e => .error e
  | .ok shown => .ok (card.1, shown)

/-- The function `renderCards` of `src/site/app.js`: for every card, the text
of its heading and the text of its paragraph. -/
def renderCards (feed : JsVal) : Except JsError (List (JsString × JsString)) := do
  let cs ← cards feed
  mapE cardText cs

/-- The function `pill` of `src/site/app.js`. -/
def pill (status : JsVal) : Except JsError JsString := do
  let safe ← escapeHtml (jsOr status (.str (lit "unknown")))
  return lit "<span class=\"status-pill status-" ++ safe ++ lit "\">" ++ safe ++ lit "</span>"

/-- The callback of `map` in `renderTable`: the markup of one record row. -/
def row (record : JsVal) : Except JsError JsString := do
  let image ← getProp record (lit "image")
  let digest := jsOr (jsOr (getOpt image (lit "digest")) (getOpt image (lit "tag")))
    (.str (lit "-"))
  let service ← getProp record (lit "service")
  let cell1 ← escapeHtml service
  let environment ← getProp record (lit "environment")
  let cell2 ← escapeHtml environment
  let status ← getProp record (lit "status")
  let cell3 ← pill status
  let smoke ← smokeStatus record
  let cell4 ← pill smoke
  let deploy ← getProp record (lit "deploy")
  let sha ← shortSha (getOpt deploy (lit "commit"))
  let cell5 ← escapeHtml sha
  let cell6 ← escapeHtml digest
  let timestamps ← getProp record (lit "timestamps")
  let cell7 ← escapeHtml (jsOr (getOpt timestamps (lit "updated_at")) (.str (lit "-")))
  let recordPath ← getProp record (lit "_record_path")
  let cell8 ← escapeHtml (jsOr recordPath (.str (lit "-")))
  return lit "\n        <tr>\n          <td>" ++ cell1
    ++ lit "</td>\n          <td>" ++ cell2
    ++ lit "</td>\n          <td>" ++ cell3
    ++ lit "</td>\n          <td>" ++ cell4
    ++ lit "</td>\n          <td><code>" ++ cell5
    ++ lit "</code></td>\n          <td><code>" ++ cell6
    ++ lit "</code></td>\n          <td>" ++ cell7
    ++ lit "</td>\n          <td><code>" ++ cell8
    ++ lit "</code></td>\n        </tr>\n      "

/-- The constant `rows` of `renderTable`: `(feed.records || []).map(...).join("")`.
A truthy value that is not an array has no `map` and the call throws. -/
def rows (feed : JsVal) : Except JsError JsString := do
  let records ← getProp feed (lit "records")
  match jsOr records (.arr []) with
  | .arr items => do
    let cells ← mapE row items
    return join [] cells
  | _ => throw .typeError

/-- The markup that stands in the table body when there is no row. -/
def noRecords : JsString := lit "<tr><td colspan=\"8\">No records found.</td></tr>"

/-- The content of `<tbody>` in `renderTable`: `rows || '<tr>...</tr>'`. -/
def tableBody (feed : JsVal) : Except JsError JsString := do
  let r ← rows feed
  return if r.isEmpty then noRecords else r

/-- The function `renderTable` of `src/site/app.js`: the markup it writes. -/
def renderTable (feed : JsVal) : Except JsError JsString := do
  let body ← tableBody feed
  return lit "\n    <table>\n      <thead>\n        <tr>"
    ++ lit "\n          <th>Service</th>\n          <th>Env</th>"
    ++ lit "\n          <th>Promotion</th>\n          <th>Smoke</th>"
    ++ lit "\n          <th>Commit</th>\n          <th>Image</th>"
    ++ lit "\n          <th>Updated</th>\n          <th>Record Path</th>"
    ++ lit "\n        </tr>\n      </thead>\n      <tbody>"
    ++ body ++ lit "</tbody>\n    </table>\n  "

/-- The render pass of `main`: `renderCards(feed)` and then `renderTable(feed)`;
an exception of either is caught by `main`, which then writes the status line
only. -/
def renderPass (feed : JsVal) : Except JsError (List (JsString × JsString) × JsString) := do
  let cs ← renderCards feed
  let table ← renderTable feed
  return (cs, table)

end Site

/-! ## Notions used to state the properties -/

/-- The five character references that `escapeHtml` writes. -/
def entities : List JsString :=
  [lit "&amp;", lit "&lt;", lit "&gt;", lit "&quot;", lit "&#039;"]

/-- The text that `escapeHtml` writes for one code unit. -/
def escapeUnit (c : CodeUnit) : JsString :=
  if c = 38 then lit "&amp;"
  else if c = 60 then lit "&lt;"
  else if c = 62 then lit "&gt;"
  else if c = 34 then lit "&quot;"
  else if c = 39 then lit "&#039;"
  else [c]

/-- The two constraints of a filter state on a record, in the words of the
specification: an empty selector value imposes no constraint, the environment
value must be the same string as the `env` field of the record, and the test
value must be the same string as the resolved smoke status. -/
def matchesFilter (env test : JsString) (r : JsVal) : Bool :=
  (env.isEmpty || strictEq (getOpt r (lit "env")) (.str env)) &&
  (test.isEmpty || strictEq (Pages.smokeStatus r) (.str test))

/-- The four smoke statuses that have a pill style. -/
def smokeStatuses : List JsVal :=
  [.str (lit "pass"), .str (lit "fail"), .str (lit "pending"), .str (lit "unknown")]

/-- The text that `text` of `src/pages/app.js` writes for one code unit. -/
def escapeUnitPages (c : CodeUnit) : JsString :=
  if c = 38 then lit "&amp;"
  else if c = 60 then lit "&lt;"
  else if c = 62 then lit "&gt;"
  else [c]

/-- Whether a value is a string. -/
def isStr : JsVal → Bool
  | .str _ => true
  | _ => false

/-- The string of a string value (and the empty string for other values). -/
def strOf : JsVal → JsString
  | .str s => s
  | _ => []

/-- The values that `linksHtml` converts to text when they are truthy: the
address of the workflow run, the five named approval addresses, and the
entries of `approvals.prs`. -/
def linkTargets (rec : JsVal) (prs : List JsVal) : List JsVal :=
  getOpt (getOpt rec (lit "source")) (lit "workflowRun") ::
    ([lit "specPr", lit "archPr", lit "demoPr", lit "uatPr", lit "releasePr"].map
        (fun k => getOpt (getOpt rec (lit "approvals")) k) ++ prs)

/-- The three values of the feed that `renderCards` converts to text: the
values of the cards `Total Records`, `Promoted` and `Failed`. -/
def summaryValues (feed : JsVal) : List JsVal :=
  [coalesce (getOpt feed (lit "total_records")) (.num (lit "0")),
   coalesce (getOpt (getOpt (getOpt feed (lit "summary")) (lit "by_status")) (lit "promoted"))
     (.num (lit "0")),
   coalesce (getOpt (getOpt (getOpt feed (lit "summary")) (lit "by_status")) (lit "failed"))
     (.num (lit "0"))]

/-- The five values, besides the image digest and the links, that a row of
`src/pages/app.js` converts to text. -/
def rowValues (r : JsVal) : List JsVal :=
  [jsOr (getOpt r (lit "evidenceId")) (.str (lit "-")),
   jsOr (getOpt r (lit "service")) (.str (lit "-")),
   jsOr (getOpt r (lit "env")) (.str (lit "-")),
   jsOr (jsOr (getOpt (getOpt r (lit "deploy")) (lit "syncedAt")) (getOpt r (lit "promotedAt")))
     (.str (lit "-")),
   Pages.smokeStatus r]

/-! ## Lemmas on the string methods -/

theorem replaceAll_unit (s : JsString) (p : CodeUnit) (rep : JsString) :
    replaceAll s [p] rep = s.flatMap (fun c => if c = p then rep else [c]) := by
  have aux : ∀ t : JsString,
      replaceAllAux [p] rep 0 t = t.flatMap (fun c => if c = p then rep else [c]) := by
    intro t
    induction t with
    | nil => rfl
    | cons c cs ih =>
      by_cases h : c = p
      · subst h
        simp [replaceAllAux, List.isPrefixOf, ih]
      · have h2 : ¬ p = c := fun e => h e.symm
        simp [replaceAllAux, List.isPrefixOf, ih, h, h2]
  simp [replaceAll, aux]

theorem indexOfFrom_first (pat : JsString) (hp : pat ≠ []) :
    ∀ (s : JsString) (k i : Nat), pat <+: s.drop i → (∀ j < i, ¬ pat <+: s.drop j) →
      indexOfFrom pat s k = some (k + i) := by
  intro s
  induction s with
  | nil =>
    intro k i h _
    simp at h
    exact absurd h hp
  | cons c cs ih =>
    intro k i h hmin
    cases i with
    | zero =>
      have hpre : pat.isPrefixOf (c :: cs) = true := List.isPrefixOf_iff_prefix.mpr (by simpa using h)
      simp [indexOfFrom, hpre]
    | succ i =>
      have h0 : ¬ pat <+: c :: cs := by simpa using hmin 0 (Nat.succ_pos i)
      have hpre : pat.isPrefixOf (c :: cs) = false := by
        cases hb : pat.isPrefixOf (c :: cs) with
        | false => rfl
        | true => exact absurd (List.isPrefixOf_iff_prefix.mp hb) h0
      have hrec := ih (k + 1) i (by simpa using h)
        (fun j hj => by simpa using hmin (j + 1) (Nat.succ_lt_succ hj))
      simp only [indexOfFrom, hpre]
      rw [hrec]
      simp [Nat.add_assoc, Nat.add_comm 1 i]

theorem error_eq (e : JsError) : e = .typeError := by
  cases e
  rfl

theorem escapeChain_eq_flatMap (s : JsString) :
    replaceAll
      (replaceAll
        (replaceAll
          (replaceAll (replaceAll s (lit "&") (lit "&amp;")) (lit "<") (lit "&lt;"))
          (lit ">") (lit "&gt;"))
        (lit "\"") (lit "&quot;"))
      (lit "\x27") (lit "&#039;") = s.flatMap escapeUnit := by
  have e1 : lit "&" = [38] := by decide
  have e2 : lit "<" = [60] := by decide
  have e3 : lit ">" = [62] := by decide
  have e4 : lit "\"" = [34] := by decide
  have e5 : lit "\x27" = [39] := by decide
  rw [e1, e2, e3, e4, e5]
  simp only [replaceAll_unit, List.flatMap_assoc]
  congr 1
  funext c
  unfold escapeUnit
  by_cases h1 : c = 38
  · subst h1; decide
  by_cases h2 : c = 60
  · subst h2; decide
  by_cases h3 : c = 62
  · subst h3; decide
  by_cases h4 : c = 34
  · subst h4; decide
  by_cases h5 : c = 39
  · subst h5; decide
  simp [h1, h2, h3, h4, h5]

theorem escapeHtml_of_toStr (v : JsVal) (s : JsString) (h : toStr v = .ok s) :
    Site.escapeHtml v = .ok (s.flatMap escapeUnit) := by
  simp only [Site.escapeHtml, h, bind, Except.bind, pure, Except.pure, escapeChain_eq_flatMap]

theorem escapeHtml_ok (v : JsVal) (out : JsString) (h : Site.escapeHtml v = .ok out) :
    ∃ s, toStr v = .ok s ∧ out = s.flatMap escapeUnit := by
  cases hs : toStr v with
  | error e => simp [Site.escapeHtml, hs, bind, Except.bind] at h
  | ok s =>
    rw [escapeHtml_of_toStr v s hs] at h
    injection h with h
    exact ⟨s, rfl, h.symm⟩

theorem pagesChain_eq_flatMap (s : JsString) :
    replaceAll
      (replaceAll (replaceAll s (lit "&") (lit "&amp;")) (lit "<") (lit "&lt;"))
      (lit ">") (lit "&gt;") = s.flatMap escapeUnitPages := by
  have e1 : lit "&" = [38] := by decide
  have e2 : lit "<" = [60] := by decide
  have e3 : lit ">" = [62] := by decide
  rw [e1, e2, e3]
  simp only [replaceAll_unit, List.flatMap_assoc]
  congr 1
  funext c
  unfold escapeUnitPages
  by_cases h1 : c = 38
  · subst h1; decide
  by_cases h2 : c = 60
  · subst h2; decide
  by_cases h3 : c = 62
  · subst h3; decide
  simp [h1, h2, h3]

theorem coalesce_of_truthy (v d : JsVal) (h : truthy v = true) : coalesce v d = v := by
  cases v <;> simp_all [coalesce, nullish, truthy]

theorem text_of_toStr (v : JsVal) (s : JsString) (hv : truthy v = true)
    (h : toStr v = .ok s) : Pages.text v = .ok (s.flatMap escapeUnitPages) := by
  simp only [Pages.text, coalesce_of_truthy v _ hv, h, bind, Except.bind, pure, Except.pure,
    pagesChain_eq_flatMap]

theorem text_ok (v : JsVal) (out : JsString) (hv : truthy v = true)
    (h : Pages.text v = .ok out) : ∃ s, toStr v = .ok s ∧ out = s.flatMap escapeUnitPages := by
  cases hs : toStr v with
  | error e =>
    simp [Pages.text, coalesce_of_truthy v _ hv, hs, bind, Except.bind] at h
  | ok s =>
    rw [text_of_toStr v s hv hs] at h
    injection h with h
    exact ⟨s, rfl, h.symm⟩

theorem text_error (v : JsVal) (e : JsError) (hv : truthy v = true)
    (h : toStr v = .error e) : Pages.text v = .error .typeError := by
  cases e
  simp [Pages.text, coalesce_of_truthy v _ hv, h, bind, Except.bind]

theorem escapeUnit_clean (c : CodeUnit) :
    ∀ d ∈ escapeUnit c, d ∉ lit "<>\"\x27" := by
  have hl : lit "<>\"\x27" = [60, 62, 34, 39] := by decide
  rw [hl]
  unfold escapeUnit
  intro d hd
  split_ifs at hd with h1 h2 h3 h4 h5
  · revert d; decide
  · revert d; decide
  · revert d; decide
  · revert d; decide
  · revert d; decide
  · simp at hd
    subst hd
    simp [h2, h3, h4, h5]

theorem escapeUnit_amp (c : CodeUnit) (pre rest : JsString)
    (h : escapeUnit c = pre ++ 38 :: rest) : pre = [] ∧ escapeUnit c ∈ entities := by
  unfold escapeUnit at h ⊢
  have key : ∀ t : JsString, 38 ∉ t → 38 :: t = pre ++ 38 :: rest → pre = [] := by
    intro t ht e
    cases pre with
    | nil => rfl
    | cons x pre =>
      simp at e
      exact absurd (e.2 ▸ (by simp : (38 : Nat) ∈ pre ++ 38 :: rest)) ht
  split_ifs at h ⊢ with h1 h2 h3 h4 h5
  · exact ⟨key _ (by decide) h, by decide⟩
  · exact ⟨key _ (by decide) h, by decide⟩
  · exact ⟨key _ (by decide) h, by decide⟩
  · exact ⟨key _ (by decide) h, by decide⟩
  · exact ⟨key _ (by decide) h, by decide⟩
  · exfalso
    cases pre with
    | nil => simp at h; exact h1 h.1
    | cons x pre => simp at h

theorem flatMap_escapeUnit_amp :
    ∀ (s pre post : JsString), s.flatMap escapeUnit = pre ++ 38 :: post →
      ∃ e ∈ entities, e <+: 38 :: post := by
  intro s
  induction s with
  | nil => intro pre post h; simp at h
  | cons c cs ih =>
    intro pre post h
    rw [List.flatMap_cons, List.append_eq_append_iff] at h
    rcases h with ⟨a, _, ha⟩ | ⟨b, hb, hpost⟩
    · exact ih a post ha
    · cases b with
      | nil =>
        simp at hpost
        exact ih [] post hpost.symm
      | cons x b =>
        simp at hpost
        obtain ⟨hx, hb2⟩ := hpost
        subst hx
        obtain ⟨hpre, hmem⟩ := escapeUnit_amp c pre b hb
        subst hpre
        refine ⟨escapeUnit c, hmem, ?_⟩
        rw [hb, hb2]
        exact ⟨cs.flatMap escapeUnit, by simp⟩

/-! ## The claims -/

/-- C4: for every string, `escapeHtml` returns, and whatever value it is given,
the text it returns contains none of the code units `<`, `>`, `"`, `'`, and at
every `&` in it starts one of the entities `&amp;`, `&lt;`, `&gt;`, `&quot;`,
`&#039;`. -/
theorem escapeHtml_escapes_all :
    (∀ s : JsString, ∃ out, Site.escapeHtml (.str s) = .ok out ∧
      (∀ c ∈ out, c ∉ lit "<>\"\x27") ∧
      (∀ before after : JsString, out = before ++ lit "&" ++ after →
        ∃ e ∈ entities, e <+: lit "&" ++ after)) ∧
    (∀ (value : JsVal) (out : JsString), Site.escapeHtml value = .ok out →
      (∀ c ∈ out, c ∉ lit "<>\"\x27") ∧
      (∀ before after : JsString, out = before ++ lit "&" ++ after →
        ∃ e ∈ entities, e <+: lit "&" ++ after)) := by
  have key : ∀ t : JsString,
      (∀ c ∈ t.flatMap escapeUnit, c ∉ lit "<>\"\x27") ∧
      (∀ before after : JsString, t.flatMap escapeUnit = before ++ lit "&" ++ after →
        ∃ e ∈ entities, e <+: lit "&" ++ after) := by
    intro t
    constructor
    · intro c hc
      obtain ⟨a, _, ha⟩ := List.mem_flatMap.mp hc
      exact escapeUnit_clean a c ha
    · intro before after h
      have e1 : lit "&" = [38] := by decide
      rw [e1] at h ⊢
      exact flatMap_escapeUnit_amp t before after (by simpa using h)
  constructor
  · intro s
    exact ⟨s.flatMap escapeUnit, escapeHtml_of_toStr (.str s) s rfl, key s⟩
  · intro value out h
    obtain ⟨s, _, hout⟩ := escapeHtml_ok value out h
    rw [hout]
    exact key s

/-- C4 at the string `<script>&"'`: the result is
`&lt;script&gt;&amp;&quot;&#039;`, which has none of the four code units. -/
theorem escapeHtml_escapes_all_witness :
    Site.escapeHtml (.str (lit "<script>&\"\x27")) = .ok (lit "&lt;script&gt;&amp;&quot;&#039;") ∧
    (∀ c ∈ lit "&lt;script&gt;&amp;&quot;&#039;", c ∉ lit "<>\"\x27") ∧
    (∀ before after : JsString,
      lit "&lt;script&gt;&amp;&quot;&#039;" = before ++ lit "&" ++ after →
        ∃ e ∈ entities, e <+: lit "&" ++ after) :=
  ⟨by rfl, escapeHtml_escapes_all.2 (.str (lit "<script>&\"\x27")) _ (by rfl)⟩

/-- C1, as amended: when the reference contains the marker `@sha256:`,
`digestFromHarbor` returns `sha256:` followed by the first 16 code units after
the first occurrence of the marker, or by all of them when fewer than 16
follow; the result has length 23 exactly when at least 16 follow. -/
theorem digestFromHarbor_marker (s : JsString) (h : ∃ j, lit "@sha256:" <+: s.drop j) :
    ∃ i, (lit "@sha256:" <+: s.drop i ∧ ∀ j < i, ¬ lit "@sha256:" <+: s.drop j) ∧
      Pages.digestFromHarbor (.str s)
        = .ok (.str (lit "sha256:" ++ (s.drop (i + 8)).take 16)) ∧
      (lit "sha256:" ++ (s.drop (i + 8)).take 16).length = 7 + min 16 (s.length - (i + 8)) ∧
      (i + 8 + 16 ≤ s.length →
        (lit "sha256:" ++ (s.drop (i + 8)).take 16).length = 23) := by
  classical
  refine ⟨Nat.find h, ⟨Nat.find_spec h, fun j hj => Nat.find_min h hj⟩, ?_, ?_, ?_⟩
  · have hne : s ≠ [] := by
      intro e
      obtain ⟨j, hj⟩ := h
      rw [e] at hj
      simp at hj
      exact absurd hj (by decide)
    have hidx : indexOf s (lit "@sha256:") = some (Nat.find h) := by
      have := indexOfFrom_first (lit "@sha256:") (by decide) s 0 (Nat.find h)
        (Nat.find_spec h) (fun j hj => Nat.find_min h hj)
      simpa [indexOf] using this
    have htr : truthy (.str s) = true := by
      cases s with
      | nil => exact absurd rfl hne
      | cons c cs => rfl
    simp [Pages.digestFromHarbor, htr, hidx, slice, List.drop_take]
  · have h7 : (lit "sha256:").length = 7 := by decide
    simp [h7]
  · intro hlen
    have h7 : (lit "sha256:").length = 7 := by decide
    simp [h7]
    omega

/-- C1 at the reference `registry/repo@sha256:` followed by 64 times `a`: the
result is `sha256:` followed by 16 times `a`, of length 23. -/
theorem digestFromHarbor_marker_witness :
    (∃ j, lit "@sha256:" <+: (lit "registry/repo@sha256:" ++ List.replicate 64 97).drop j) ∧
    Pages.digestFromHarbor (.str (lit "registry/repo@sha256:" ++ List.replicate 64 97))
      = .ok (.str (lit "sha256:" ++ List.replicate 16 97)) ∧
    ∃ i, (lit "@sha256:" <+: (lit "registry/repo@sha256:" ++ List.replicate 64 97).drop i ∧
        ∀ j < i, ¬ lit "@sha256:" <+:
          (lit "registry/repo@sha256:" ++ List.replicate 64 97).drop j) ∧
      Pages.digestFromHarbor (.str (lit "registry/repo@sha256:" ++ List.replicate 64 97))
        = .ok (.str (lit "sha256:" ++
            ((lit "registry/repo@sha256:" ++ List.replicate 64 97).drop (i + 8)).take 16)) ∧
      (lit "sha256:" ++
          ((lit "registry/repo@sha256:" ++ List.replicate 64 97).drop (i + 8)).take 16).length
        = 7 + min 16 ((lit "registry/repo@sha256:" ++ List.replicate 64 97).length - (i + 8)) ∧
      (i + 8 + 16 ≤ (lit "registry/repo@sha256:" ++ List.replicate 64 97).length →
        (lit "sha256:" ++
          ((lit "registry/repo@sha256:" ++ List.replicate 64 97).drop (i + 8)).take 16).length
          = 23) :=
  ⟨⟨13, List.replicate 64 97, by decide⟩, by rfl,
   digestFromHarbor_marker (lit "registry/repo@sha256:" ++ List.replicate 64 97)
    ⟨13, List.replicate 64 97, by decide⟩⟩

/-- C1 as stated fails: the reference `r@sha256:abc` contains the marker, and
the result `sha256:abc` has length 10, not 23. -/
theorem digestFromHarbor_short_counterexample :
    lit "@sha256:" <+: (lit "r@sha256:abc").drop 1 ∧
    Pages.digestFromHarbor (.str (lit "r@sha256:abc")) = .ok (.str (lit "sha256:abc")) ∧
    (lit "sha256:abc").length = 10 ∧ (lit "sha256:abc").length ≠ 23 :=
  ⟨⟨lit "abc", by decide⟩, by rfl, by decide, by decide⟩

/-- C2, as amended: in `src/pages/app.js` the smoke status is
`tests.smoke.status` when that is truthy and `unknown` otherwise, whatever
`smoke.status` is; in `src/site/app.js`, for a record that is not nullish, it
is `tests.smoke.status` when that is truthy, otherwise `smoke.status` when
that is truthy, otherwise `unknown`, and for a nullish record the function
throws. -/
theorem smokeStatus_fallback (r : JsVal) :
    (truthy (getOpt (getOpt (getOpt r (lit "tests")) (lit "smoke")) (lit "status")) = true →
      Pages.smokeStatus r = getOpt (getOpt (getOpt r (lit "tests")) (lit "smoke")) (lit "status")) ∧
    (truthy (getOpt (getOpt (getOpt r (lit "tests")) (lit "smoke")) (lit "status")) = false →
      Pages.smokeStatus r = .str (lit "unknown")) ∧
    (nullish r = false →
      (truthy (getOpt (getOpt (getOpt r (lit "tests")) (lit "smoke")) (lit "status")) = true →
        Site.smokeStatus r
          = .ok (getOpt (getOpt (getOpt r (lit "tests")) (lit "smoke")) (lit "status"))) ∧
      (truthy (getOpt (getOpt (getOpt r (lit "tests")) (lit "smoke")) (lit "status")) = false →
        truthy (getOpt (getOpt r (lit "smoke")) (lit "status")) = true →
        Site.smokeStatus r = .ok (getOpt (getOpt r (lit "smoke")) (lit "status"))) ∧
      (truthy (getOpt (getOpt (getOpt r (lit "tests")) (lit "smoke")) (lit "status")) = false →
        truthy (getOpt (getOpt r (lit "smoke")) (lit "status")) = false →
        Site.smokeStatus r = .ok (.str (lit "unknown")))) ∧
    (nullish r = true → Site.smokeStatus r = .error .typeError) := by
  refine ⟨?_, ?_, ?_, ?_⟩
  · intro h
    simp [Pages.smokeStatus, jsOr, h]
  · intro h
    simp [Pages.smokeStatus, jsOr, h]
  · intro hr
    have hget : ∀ k, getProp r k = .ok (getOpt r k) := by
      intro k
      cases r <;> simp_all [getProp, getOpt, nullish]
    refine ⟨?_, ?_, ?_⟩
    · intro h
      simp [Site.smokeStatus, hget, h, bind, Except.bind, pure, Except.pure]
    · intro h1 h2
      simp [Site.smokeStatus, hget, h1, h2, bind, Except.bind, pure, Except.pure]
    · intro h1 h2
      simp [Site.smokeStatus, hget, h1, h2, bind, Except.bind, pure, Except.pure]
  · intro hr
    cases r <;> simp_all [nullish] <;> rfl

/-- C2 at the record `{smoke: {status: "pass"}}`: the pages variant answers
`unknown`, the site variant answers `pass`. -/
theorem smokeStatus_fallback_witness :
    Pages.smokeStatus (.obj [(lit "smoke", .obj [(lit "status", .str (lit "pass"))])])
      = .str (lit "unknown") ∧
    Site.smokeStatus (.obj [(lit "smoke", .obj [(lit "status", .str (lit "pass"))])])
      = .ok (getOpt (getOpt (.obj [(lit "smoke", .obj [(lit "status", .str (lit "pass"))])])
          (lit "smoke")) (lit "status")) :=
  ⟨(smokeStatus_fallback _).2.1 (by rfl),
   ((smokeStatus_fallback _).2.2.1 (by rfl)).2.1 (by rfl) (by rfl)⟩

/-- C2 as stated fails for `src/pages/app.js`: in the record
`{smoke: {status: "pass"}}` the field `tests.smoke.status` is absent and
`smoke.status` is `pass`, yet the pages variant resolves `unknown`. -/
theorem smokeStatus_pages_counterexample :
    getOpt (getOpt (getOpt (.obj [(lit "smoke", .obj [(lit "status", .str (lit "pass"))])])
      (lit "tests")) (lit "smoke")) (lit "status") = .undefined ∧
    getOpt (getOpt (.obj [(lit "smoke", .obj [(lit "status", .str (lit "pass"))])])
      (lit "smoke")) (lit "status") = .str (lit "pass") ∧
    Pages.smokeStatus (.obj [(lit "smoke", .obj [(lit "status", .str (lit "pass"))])])
      = .str (lit "unknown") ∧
    Pages.smokeStatus (.obj [(lit "smoke", .obj [(lit "status", .str (lit "pass"))])])
      ≠ .str (lit "pass") := by
  refine ⟨by rfl, by rfl, by rfl, ?_⟩
  intro h
  have h2 : Pages.smokeStatus (.obj [(lit "smoke", .obj [(lit "status", .str (lit "pass"))])])
      = .str (lit "unknown") := by rfl
  rw [h2] at h
  injection h with h3
  exact absurd h3 (by decide)

/-- C3 at failing inputs: `text` leaves the double and the single quote as
they are, and `linksHtml` writes a workflow-run address that contains a double
quote into the `href` attribute unescaped, so that the attribute ends inside
the address. -/
theorem text_keeps_quotes :
    Pages.text (.str (lit "\"")) = .ok (lit "\"") ∧
    Pages.text (.str (lit "\x27")) = .ok (lit "\x27") ∧
    Pages.text (.str (lit "<&>")) = .ok (lit "&lt;&amp;&gt;") ∧
    Pages.linksHtml (.obj [(lit "source",
        .obj [(lit "workflowRun", .str (lit "x\" onclick=\"alert(1)"))])])
      = .ok (lit
          "<a href=\"x\" onclick=\"alert(1)\" target=\"_blank\" rel=\"noreferrer\">run</a>") := by
  refine ⟨by rfl, by rfl, by rfl, by rfl⟩

/-! ### Filtering -/

theorem filterE_kept {α : Type} (f : α → Except JsError Bool) :
    ∀ (xs L : List α), filterE f xs = .ok L → ∀ x ∈ L, f x = .ok true := by
  intro xs
  induction xs with
  | nil =>
    intro L h x hx
    simp [filterE] at h
    subst h
    simp at hx
  | cons a as ih =>
    intro L h x hx
    unfold filterE at h
    cases hfa : f a with
    | error e => simp [hfa] at h
    | ok b =>
      cases hrest : filterE f as with
      | error e => simp [hfa, hrest] at h
      | ok rest =>
        simp [hfa, hrest] at h
        cases b with
        | false =>
          simp at h
          subst h
          exact ih rest hrest x hx
        | true =>
          simp at h
          subst h
          rcases List.mem_cons.mp hx with hxa | hxr
          · subst hxa; exact hfa
          · exact ih rest hrest x hxr

theorem filterE_total {α : Type} (f : α → Except JsError Bool) (g : α → Bool) :
    ∀ xs : List α, (∀ x ∈ xs, f x = .ok (g x)) → filterE f xs = .ok (xs.filter g) := by
  intro xs
  induction xs with
  | nil => intro _; rfl
  | cons a as ih =>
    intro h
    have ha := h a (List.mem_cons_self a as)
    have hrest := ih (fun x hx => h x (List.mem_cons_of_mem a hx))
    unfold filterE
    rw [ha, hrest]
    cases hg : g a <;> simp [List.filter, hg]

theorem filterE_eq_filter {α : Type} (f : α → Except JsError Bool) (g : α → Bool)
    (hfg : ∀ x b, f x = .ok b → b = g x) :
    ∀ (xs L : List α), filterE f xs = .ok L → L = xs.filter g := by
  intro xs
  induction xs with
  | nil =>
    intro L h
    simp [filterE] at h
    simp [h]
  | cons a as ih =>
    intro L h
    unfold filterE at h
    cases hfa : f a with
    | error e => simp [hfa] at h
    | ok b =>
      cases hrest : filterE f as with
      | error e => simp [hfa, hrest] at h
      | ok rest =>
        simp [hfa, hrest] at h
        have hb := hfg a b hfa
        have hr := ih rest hrest
        subst h
        rw [hb, hr]
        cases hg : g a <;> simp [List.filter, hg]

theorem keeps_total (env test : JsString) (r : JsVal)
    (h : env = [] ∨ nullish r = false) :
    Pages.keeps env test r = .ok (matchesFilter env test r) := by
  have hget : nullish r = false → getProp r (lit "env") = .ok (getOpt r (lit "env")) := by
    intro hr
    cases r <;> simp_all [getProp, getOpt, nullish]
  cases env with
  | nil =>
    cases ht : strictEq (Pages.smokeStatus r) (.str test) <;> cases test <;>
      simp [Pages.keeps, matchesFilter, truthy, ht, bind, Except.bind, pure, Except.pure]
  | cons c cs =>
    have hr : nullish r = false := by
      rcases h with h | h
      · exact absurd h (by simp)
      · exact h
    cases he : strictEq (getOpt r (lit "env")) (.str (c :: cs)) <;>
      cases ht : strictEq (Pages.smokeStatus r) (.str test) <;> cases test <;>
      simp [Pages.keeps, matchesFilter, truthy, hget hr, he, ht, bind, Except.bind, pure,
        Except.pure]

theorem keeps_ok (env test : JsString) (r : JsVal) (b : Bool)
    (h : Pages.keeps env test r = .ok b) : b = matchesFilter env test r := by
  by_cases hc : env = [] ∨ nullish r = false
  · rw [keeps_total env test r hc] at h
    injection h with h
    exact h.symm
  · exfalso
    have henv : env ≠ [] := fun e => hc (Or.inl e)
    have hr : nullish r = true := by
      cases hn : nullish r with
      | true => rfl
      | false => exact absurd (Or.inr hn) hc
    cases env with
    | nil => exact henv rfl
    | cons c cs =>
      cases r <;> simp_all [nullish] <;>
        simp [Pages.keeps, truthy, getProp, bind, Except.bind] at h

/-- C5: the filter of `render` is idempotent and keeps the original order: the
records it returns are again returned unchanged, they are the sublist of the
loaded records that satisfy both active constraints, and the filter does return
whenever no environment is selected or no loaded record is nullish (when it
throws, filtering its result throws the same). -/
theorem filter_idempotent (env test : JsString) (R : List JsVal) :
    (∀ L, Pages.filter env test R = .ok L →
      Pages.filter env test L = .ok L ∧ L = R.filter (matchesFilter env test) ∧
        L.Sublist R) ∧
    (Pages.filter env test R).bind (Pages.filter env test) = Pages.filter env test R ∧
    ((env = [] ∨ ∀ r ∈ R, nullish r = false) →
      Pages.filter env test R = .ok (R.filter (matchesFilter env test))) := by
  have hidem : ∀ L, Pages.filter env test R = .ok L → Pages.filter env test L = .ok L := by
    intro L h
    have hk := filterE_kept (Pages.keeps env test) R L h
    have := filterE_total (Pages.keeps env test) (fun _ => true) L (fun x hx => hk x hx)
    simpa [Pages.filter] using this
  refine ⟨?_, ?_, ?_⟩
  · intro L h
    have heq := filterE_eq_filter (Pages.keeps env test) (matchesFilter env test)
      (keeps_ok env test) R L h
    refine ⟨hidem L h, heq, ?_⟩
    rw [heq]
    exact List.filter_sublist R
  · cases h : Pages.filter env test R with
    | error e => rfl
    | ok L => simpa [Except.bind] using hidem L h
  · intro h
    apply filterE_total
    intro r hr
    apply keeps_total
    rcases h with h | h
    · exact Or.inl h
    · exact Or.inr (h r hr)

/-- C5 at three records and the selection `env = prod`: the second record is
dropped, the other two are kept in their order, and filtering again changes
nothing. -/
theorem filter_idempotent_witness :
    Pages.filter (lit "prod") []
        [.obj [(lit "env", .str (lit "prod")), (lit "service", .str (lit "a"))],
         .obj [(lit "env", .str (lit "dev"))],
         .obj [(lit "env", .str (lit "prod")), (lit "service", .str (lit "b"))]]
      = .ok ([.obj [(lit "env", .str (lit "prod")), (lit "service", .str (lit "a"))],
         .obj [(lit "env", .str (lit "dev"))],
         .obj [(lit "env", .str (lit "prod")), (lit "service", .str (lit "b"))]].filter
          (matchesFilter (lit "prod") [])) ∧
    Pages.filter (lit "prod") []
        [.obj [(lit "env", .str (lit "prod")), (lit "service", .str (lit "a"))],
         .obj [(lit "env", .str (lit "prod")), (lit "service", .str (lit "b"))]]
      = .ok [.obj [(lit "env", .str (lit "prod")), (lit "service", .str (lit "a"))],
         .obj [(lit "env", .str (lit "prod")), (lit "service", .str (lit "b"))]] :=
  ⟨(filter_idempotent (lit "prod") [] _).2.2
      (Or.inr (by intro r hr; simp at hr; rcases hr with h | h | h <;> subst h <;> rfl)),
   ((filter_idempotent (lit "prod") []
      [.obj [(lit "env", .str (lit "prod")), (lit "service", .str (lit "a"))],
       .obj [(lit "env", .str (lit "dev"))],
       .obj [(lit "env", .str (lit "prod")), (lit "service", .str (lit "b"))]]).1 _
      (by rfl)).1⟩

/-! ### Links -/

theorem pushLink_ok (v : JsVal) (label : JsString) (ls : List JsString)
    (h : Pages.pushLink v label = .ok ls) :
    (truthy v = false ∧ ls = []) ∨
      (truthy v = true ∧ ∃ href, Pages.text v = .ok href ∧ ls = [Pages.anchor href label]) := by
  unfold Pages.pushLink at h
  cases hv : truthy v with
  | false =>
    simp [hv] at h
    exact Or.inl ⟨rfl, h⟩
  | true =>
    cases ht : Pages.text v with
    | error e => simp [hv, ht] at h
    | ok href =>
      simp [hv, ht] at h
      exact Or.inr ⟨rfl, href, rfl, h.symm⟩

theorem pushLink_printable (v : JsVal) (label : JsString) (ls : List JsString)
    (h : Pages.pushLink v label = .ok ls) (hv : truthy v = true) : ∃ t, toStr v = .ok t := by
  rcases pushLink_ok v label ls h with ⟨hf, _⟩ | ⟨_, href, ht, _⟩
  · rw [hv] at hf; exact absurd hf (by simp)
  · obtain ⟨s, hs, _⟩ := text_ok v href hv ht
    exact ⟨s, hs⟩

theorem pushLink_returns (v : JsVal) (label : JsString)
    (h : truthy v = true → ∃ t, toStr v = .ok t) : ∃ ls, Pages.pushLink v label = .ok ls := by
  unfold Pages.pushLink
  cases hv : truthy v with
  | false => exact ⟨[], by simp⟩
  | true =>
    obtain ⟨t, ht⟩ := h hv
    exact ⟨[Pages.anchor (t.flatMap escapeUnitPages) label], by
      simp [text_of_toStr v t hv ht]⟩

theorem prLinksFrom_spec :
    ∀ (prs : List JsVal) (k : Nat) (prl : List JsString), Pages.prLinksFrom prs k = .ok prl →
      List.Forall₂
        (fun p l => ∃ href, Pages.text p.2 = .ok href ∧
          l = Pages.anchor href (lit "pr" ++ natToStr (p.1 + 1)))
        ((prs.enumFrom k).filter (fun p => truthy p.2)) prl ∧
      ∀ v ∈ prs, truthy v = true → ∃ t, toStr v = .ok t := by
  intro prs
  induction prs with
  | nil =>
    intro k prl h
    simp [Pages.prLinksFrom] at h
    subst h
    exact ⟨by simp, by simp⟩
  | cons pr rest ih =>
    intro k prl h
    unfold Pages.prLinksFrom at h
    cases hp : Pages.pushLink pr (lit "pr" ++ natToStr (k + 1)) with
    | error e => simp [hp] at h
    | ok first =>
      cases hr : Pages.prLinksFrom rest (k + 1) with
      | error e => simp [hp, hr] at h
      | ok others =>
        simp [hp, hr] at h
        subst h
        obtain ⟨ih1, ih2⟩ := ih (k + 1) others hr
        constructor
        · rcases pushLink_ok _ _ _ hp with ⟨hf, hls⟩ | ⟨ht, href, htext, hls⟩
          · subst hls
            simpa [List.enumFrom_cons, List.filter, hf] using ih1
          · subst hls
            simp only [List.enumFrom_cons, List.filter, ht, List.singleton_append]
            exact List.Forall₂.cons ⟨href, htext, rfl⟩ ih1
        · intro v hv htr
          rcases List.mem_cons.mp hv with hv | hv
          · subst hv
            exact pushLink_printable _ _ _ hp htr
          · exact ih2 v hv htr

theorem prLinksFrom_returns :
    ∀ (prs : List JsVal) (k : Nat), (∀ v ∈ prs, truthy v = true → ∃ t, toStr v = .ok t) →
      ∃ prl, Pages.prLinksFrom prs k = .ok prl := by
  intro prs
  induction prs with
  | nil => intro k _; exact ⟨[], rfl⟩
  | cons pr rest ih =>
    intro k h
    obtain ⟨first, hf⟩ := pushLink_returns pr (lit "pr" ++ natToStr (k + 1))
      (h pr (List.mem_cons_self pr rest))
    obtain ⟨others, ho⟩ := ih (k + 1) (fun v hv => h v (List.mem_cons_of_mem pr hv))
    exact ⟨first ++ others, by simp [Pages.prLinksFrom, hf, ho]⟩

theorem namedLinksFrom_printable (approvals : JsVal) :
    ∀ (ks : List JsString) (ls : List JsString), Pages.namedLinksFrom approvals ks = .ok ls →
      ∀ k ∈ ks, truthy (getOpt approvals k) = true → ∃ t, toStr (getOpt approvals k) = .ok t := by
  intro ks
  induction ks with
  | nil => intro ls _ k hk; simp at hk
  | cons k0 rest ih =>
    intro ls h k hk htr
    unfold Pages.namedLinksFrom at h
    cases hp : Pages.pushLink (getOpt approvals k0) k0 with
    | error e => simp [hp] at h
    | ok first =>
      cases hr : Pages.namedLinksFrom approvals rest with
      | error e => simp [hp, hr] at h
      | ok others =>
        rcases List.mem_cons.mp hk with hk | hk
        · subst hk
          exact pushLink_printable _ _ _ hp htr
        · exact ih others hr k hk htr

theorem namedLinksFrom_returns (approvals : JsVal) :
    ∀ ks : List JsString,
      (∀ k ∈ ks, truthy (getOpt approvals k) = true → ∃ t, toStr (getOpt approvals k) = .ok t) →
      ∃ ls, Pages.namedLinksFrom approvals ks = .ok ls := by
  intro ks
  induction ks with
  | nil => intro _; exact ⟨[], rfl⟩
  | cons k0 rest ih =>
    intro h
    obtain ⟨first, hf⟩ := pushLink_returns (getOpt approvals k0) k0
      (h k0 (List.mem_cons_self k0 rest))
    obtain ⟨others, ho⟩ := ih (fun k hk => h k (List.mem_cons_of_mem k0 hk))
    exact ⟨first ++ others, by simp [Pages.namedLinksFrom, hf, ho]⟩

theorem approvals_of_prs (rec : JsVal) (prs : List JsVal)
    (h : getOpt (getOpt rec (lit "approvals")) (lit "prs") = .arr prs) :
    jsOr (getOpt rec (lit "approvals")) (.obj []) = getOpt rec (lit "approvals") := by
  cases ha : getOpt rec (lit "approvals") with
  | obj props => rfl
  | _ => rw [ha] at h; simp [getOpt] at h

theorem links_ok (rec : JsVal) (prs : List JsVal)
    (h : getOpt (getOpt rec (lit "approvals")) (lit "prs") = .arr prs)
    (ls : List JsString) (hl : Pages.links rec = .ok ls) :
    ∃ run named prl, Pages.runLinks rec = .ok run ∧
      Pages.namedLinks (getOpt rec (lit "approvals")) = .ok named ∧
      Pages.prLinksFrom prs 0 = .ok prl ∧ ls = run ++ named ++ prl := by
  unfold Pages.links at hl
  rw [approvals_of_prs rec prs h] at hl
  cases hr : Pages.runLinks rec with
  | error e => simp [hr] at hl
  | ok run =>
    cases hn : Pages.namedLinks (getOpt rec (lit "approvals")) with
    | error e => simp [hr, hn] at hl
    | ok named =>
      have hp : Pages.prLinks (getOpt rec (lit "approvals")) = Pages.prLinksFrom prs 0 := by
        simp [Pages.prLinks, h]
      cases hq : Pages.prLinksFrom prs 0 with
      | error e => simp [hr, hn, hp, hq] at hl
      | ok prl =>
        simp only [hr, hn, hp, hq] at hl
        injection hl with hl
        exact ⟨run, named, prl, rfl, rfl, rfl, hl.symm⟩

theorem links_printable (rec : JsVal) (prs : List JsVal)
    (h : getOpt (getOpt rec (lit "approvals")) (lit "prs") = .arr prs)
    (ls : List JsString) (hl : Pages.links rec = .ok ls) :
    ∀ v ∈ linkTargets rec prs, truthy v = true → ∃ t, toStr v = .ok t := by
  obtain ⟨run, named, prl, hr, hn, hp, _⟩ := links_ok rec prs h ls hl
  intro v hv htr
  unfold linkTargets at hv
  rcases List.mem_cons.mp hv with hv | hv
  · subst hv
    exact pushLink_printable _ _ _ hr htr
  · rcases List.mem_append.mp hv with hv | hv
    · obtain ⟨k, hk, rfl⟩ := List.mem_map.mp hv
      exact namedLinksFrom_printable _ _ named hn k hk htr
    · exact (prLinksFrom_spec prs 0 prl hp).2 v hv htr

theorem links_returns (rec : JsVal) (prs : List JsVal)
    (h : getOpt (getOpt rec (lit "approvals")) (lit "prs") = .arr prs)
    (hp : ∀ v ∈ linkTargets rec prs, truthy v = true → ∃ t, toStr v = .ok t) :
    ∃ ls, Pages.links rec = .ok ls := by
  obtain ⟨run, hr⟩ := pushLink_returns
    (getOpt (getOpt rec (lit "source")) (lit "workflowRun")) (lit "run")
    (hp _ (by simp [linkTargets]))
  obtain ⟨named, hn⟩ := namedLinksFrom_returns (getOpt rec (lit "approvals"))
    [lit "specPr", lit "archPr", lit "demoPr", lit "uatPr", lit "releasePr"]
    (fun k hk => hp _ (by
      unfold linkTargets
      exact List.mem_cons_of_mem _ (List.mem_append_left _ (List.mem_map.mpr ⟨k, hk, rfl⟩))))
  obtain ⟨prl, hq⟩ := prLinksFrom_returns prs 0
    (fun v hv => hp v (by
      unfold linkTargets
      exact List.mem_cons_of_mem _ (List.mem_append_right _ hv)))
  refine ⟨run ++ named ++ prl, ?_⟩
  have hr2 : Pages.runLinks rec = .ok run := hr
  have hn2 : Pages.namedLinks (getOpt rec (lit "approvals")) = .ok named := hn
  have hq2 : Pages.prLinks (getOpt rec (lit "approvals")) = .ok prl := by
    simp [Pages.prLinks, h, hq]
  unfold Pages.links
  rw [approvals_of_prs rec prs h]
  simp [hr2, hn2, hq2]

/-- C6, as amended: when `approvals.prs` is an array and `linksHtml` returns,
its links are the run link, the named approval links, and then exactly one
link for every truthy entry of the array, in array order, the entry at index
`i` being labelled `pr` followed by `i + 1` (a falsy entry gives no link and
leaves the later labels as they are); the markup is the links joined by a
blank, or `-` when there is none. `linksHtml` returns when `String` converts
every truthy address it embeds, and throws when it cannot convert one. -/
theorem linksHtml_pr_labels (rec : JsVal) (prs : List JsVal)
    (h : getOpt (getOpt rec (lit "approvals")) (lit "prs") = .arr prs) :
    (∀ ls, Pages.links rec = .ok ls →
      ∃ run named prl, Pages.runLinks rec = .ok run ∧
        Pages.namedLinks (getOpt rec (lit "approvals")) = .ok named ∧
        ls = run ++ named ++ prl ∧
        List.Forall₂
          (fun p l => ∃ href, Pages.text p.2 = .ok href ∧
            l = Pages.anchor href (lit "pr" ++ natToStr (p.1 + 1)))
          (prs.enum.filter (fun p => truthy p.2)) prl ∧
        Pages.linksHtml rec = .ok (if ls = [] then lit "-" else join (lit " ") ls)) ∧
    ((∀ v ∈ linkTargets rec prs, truthy v = true → ∃ t, toStr v = .ok t) →
      ∃ ls, Pages.links rec = .ok ls) ∧
    ((∃ v ∈ linkTargets rec prs, truthy v = true ∧ toStr v = .error .typeError) →
      Pages.linksHtml rec = .error .typeError) := by
  refine ⟨?_, links_returns rec prs h, ?_⟩
  · intro ls hl
    obtain ⟨run, named, prl, hr, hn, hp, hls⟩ := links_ok rec prs h ls hl
    refine ⟨run, named, prl, hr, hn, hls, (prLinksFrom_spec prs 0 prl hp).1, ?_⟩
    unfold Pages.linksHtml
    rw [hl]
    cases ls <;> simp
  · rintro ⟨v, hv, htr, herr⟩
    unfold Pages.linksHtml
    cases hl : Pages.links rec with
    | error e => cases e; rfl
    | ok ls =>
      obtain ⟨t, ht⟩ := links_printable rec prs h ls hl v hv htr
      rw [ht] at herr
      exact absurd herr (by simp)

/-- C6 at `approvals.prs = ["urlA", null, "urlC"]`: the two links are labelled
`pr1` and `pr3`. -/
theorem linksHtml_pr_labels_witness :
    Pages.links (.obj [(lit "approvals",
        .obj [(lit "prs", .arr [.str (lit "urlA"), .null, .str (lit "urlC")])])])
      = .ok [Pages.anchor (lit "urlA") (lit "pr1"), Pages.anchor (lit "urlC") (lit "pr3")] ∧
    (∃ run named prl,
      Pages.runLinks (.obj [(lit "approvals",
        .obj [(lit "prs", .arr [.str (lit "urlA"), .null, .str (lit "urlC")])])]) = .ok run ∧
      Pages.namedLinks (getOpt (.obj [(lit "approvals",
        .obj [(lit "prs", .arr [.str (lit "urlA"), .null, .str (lit "urlC")])])])
          (lit "approvals")) = .ok named ∧
      [Pages.anchor (lit "urlA") (lit "pr1"), Pages.anchor (lit "urlC") (lit "pr3")]
        = run ++ named ++ prl ∧
      List.Forall₂
        (fun p l => ∃ href, Pages.text p.2 = .ok href ∧
          l = Pages.anchor href (lit "pr" ++ natToStr (p.1 + 1)))
        ([JsVal.str (lit "urlA"), .null, .str (lit "urlC")].enum.filter
          (fun p => truthy p.2)) prl ∧
      Pages.linksHtml (.obj [(lit "approvals",
        .obj [(lit "prs", .arr [.str (lit "urlA"), .null, .str (lit "urlC")])])])
        = .ok (if [Pages.anchor (lit "urlA") (lit "pr1"),
              Pages.anchor (lit "urlC") (lit "pr3")] = []
            then lit "-"
            else join (lit " ") [Pages.anchor (lit "urlA") (lit "pr1"),
              Pages.anchor (lit "urlC") (lit "pr3")])) :=
  ⟨by rfl,
   (linksHtml_pr_labels _ [.str (lit "urlA"), .null, .str (lit "urlC")] (by rfl)).1 _ (by rfl)⟩

/-- C6 as stated fails: in `approvals.prs = [{"toString": 1}]` the entry is
truthy, yet `linksHtml` emits no link for it: `String` cannot convert the
entry and `linksHtml` throws. -/
theorem linksHtml_pr_counterexample :
    getOpt (getOpt (.obj [(lit "approvals",
        .obj [(lit "prs", .arr [.obj [(lit "toString", .num (lit "1"))]])])])
      (lit "approvals")) (lit "prs") = .arr [.obj [(lit "toString", .num (lit "1"))]] ∧
    truthy (.obj [(lit "toString", .num (lit "1"))]) = true ∧
    Pages.linksHtml (.obj [(lit "approvals",
        .obj [(lit "prs", .arr [.obj [(lit "toString", .num (lit "1"))]])])])
      = .error .typeError :=
  ⟨by rfl, by rfl, by rfl⟩

/-! ### The site variant -/

theorem getProp_of_not_nullish (v : JsVal) (k : JsString) (h : nullish v = false) :
    getProp v k = .ok (getOpt v k) := by
  cases v <;> simp_all [getProp, getOpt, nullish]

theorem getProp_of_nullish (v : JsVal) (k : JsString) (h : nullish v = true) :
    getProp v k = .error .typeError := by
  cases v <;> simp_all [getProp, nullish]

theorem site_smokeStatus_returns (r : JsVal) (h : nullish r = false) :
    ∃ v, Site.smokeStatus r = .ok v := by
  unfold Site.smokeStatus
  simp only [getProp_of_not_nullish r _ h, bind, Except.bind, pure, Except.pure]
  split_ifs <;> exact ⟨_, rfl⟩

theorem filterE_returns {α : Type} (f : α → Except JsError Bool) :
    ∀ xs : List α, (∀ x ∈ xs, ∃ b, f x = .ok b) → ∃ L, filterE f xs = .ok L := by
  intro xs
  induction xs with
  | nil => intro _; exact ⟨[], rfl⟩
  | cons a as ih =>
    intro h
    obtain ⟨b, hb⟩ := h a (List.mem_cons_self a as)
    obtain ⟨L, hL⟩ := ih (fun x hx => h x (List.mem_cons_of_mem a hx))
    exact ⟨if b then a :: L else L, by simp [filterE, hb, hL]⟩

theorem smokePassCount_returns (records : JsVal) (items : List JsVal)
    (h : nullish records = true ∨ (records = .arr items ∧ ∀ r ∈ items, nullish r = false)) :
    ∃ n, Site.smokePassCount records = .ok n := by
  rcases h with h | ⟨h, hitems⟩
  · cases records <;> simp_all [nullish, Site.smokePassCount]
  · subst h
    obtain ⟨L, hL⟩ := filterE_returns Site.isSmokePass items
      (fun r hr => by
        obtain ⟨v, hv⟩ := site_smokeStatus_returns r (hitems r hr)
        exact ⟨strictEq v (.str (lit "pass")), by
          simp [Site.isSmokePass, hv, bind, Except.bind, pure, Except.pure]⟩)
    exact ⟨.num (natToStr L.length), by
      simp [Site.smokePassCount, hL, bind, Except.bind, pure, Except.pure]⟩

theorem smokePassCount_num (records n : JsVal) (h : Site.smokePassCount records = .ok n) :
    ∃ shown, n = .num shown := by
  cases records with
  | undefined => simp [Site.smokePassCount] at h; exact ⟨_, h.symm⟩
  | null => simp [Site.smokePassCount] at h; exact ⟨_, h.symm⟩
  | arr items =>
    simp only [Site.smokePassCount, bind, Except.bind, pure, Except.pure] at h
    cases hf : filterE Site.isSmokePass items with
    | error e => simp [hf] at h
    | ok passed =>
      simp [hf] at h
      exact ⟨_, h.symm⟩
  | bool b => simp [Site.smokePassCount] at h
  | num x => simp [Site.smokePassCount] at h
  | str x => simp [Site.smokePassCount] at h
  | obj x => simp [Site.smokePassCount] at h

theorem cards_of_count (feed n : JsVal) (hn : nullish feed = false)
    (hc : Site.smokePassCount (getOpt feed (lit "records")) = .ok n) :
    Site.cards feed = .ok [
      (lit "Total Records", coalesce (getOpt feed (lit "total_records")) (.num (lit "0"))),
      (lit "Promoted",
        coalesce (getOpt (getOpt (getOpt feed (lit "summary")) (lit "by_status")) (lit "promoted"))
          (.num (lit "0"))),
      (lit "Failed",
        coalesce (getOpt (getOpt (getOpt feed (lit "summary")) (lit "by_status")) (lit "failed"))
          (.num (lit "0"))),
      (lit "Smoke Pass", n)] := by
  simp only [Site.cards, getProp_of_not_nullish feed _ hn, hc, bind, Except.bind, pure,
    Except.pure]

theorem cards_ok (feed : JsVal) (cs : List (JsString × JsVal)) (h : Site.cards feed = .ok cs) :
    nullish feed = false ∧ ∃ n, Site.smokePassCount (getOpt feed (lit "records")) = .ok n ∧
      cs = [
        (lit "Total Records", coalesce (getOpt feed (lit "total_records")) (.num (lit "0"))),
        (lit "Promoted",
          coalesce
            (getOpt (getOpt (getOpt feed (lit "summary")) (lit "by_status")) (lit "promoted"))
            (.num (lit "0"))),
        (lit "Failed",
          coalesce (getOpt (getOpt (getOpt feed (lit "summary")) (lit "by_status")) (lit "failed"))
            (.num (lit "0"))),
        (lit "Smoke Pass", n)] := by
  cases hn : nullish feed with
  | true => simp [Site.cards, getProp_of_nullish feed _ hn, bind, Except.bind] at h
  | false =>
    refine ⟨rfl, ?_⟩
    cases hc : Site.smokePassCount (getOpt feed (lit "records")) with
    | error e =>
      simp [Site.cards, getProp_of_not_nullish feed _ hn, hc, bind, Except.bind] at h
    | ok n =>
      rw [cards_of_count feed n hn hc] at h
      injection h with h
      exact ⟨n, rfl, h.symm⟩

theorem renderCards_of_count (feed n : JsVal) (t1 t2 t3 : JsString) (hn : nullish feed = false)
    (hc : Site.smokePassCount (getOpt feed (lit "records")) = .ok n)
    (h1 : toStr (coalesce (getOpt feed (lit "total_records")) (.num (lit "0"))) = .ok t1)
    (h2 : toStr (coalesce
      (getOpt (getOpt (getOpt feed (lit "summary")) (lit "by_status")) (lit "promoted"))
      (.num (lit "0"))) = .ok t2)
    (h3 : toStr (coalesce
      (getOpt (getOpt (getOpt feed (lit "summary")) (lit "by_status")) (lit "failed"))
      (.num (lit "0"))) = .ok t3) :
    ∃ t4, toStr n = .ok t4 ∧ Site.renderCards feed = .ok [(lit "Total Records", t1),
      (lit "Promoted", t2), (lit "Failed", t3), (lit "Smoke Pass", t4)] := by
  obtain ⟨shown, rfl⟩ := smokePassCount_num _ n hc
  refine ⟨shown, rfl, ?_⟩
  simp only [Site.renderCards, cards_of_count feed _ hn hc, bind, Except.bind, mapE,
    Site.cardText, h1, h2, h3, toStr]

/-- C7, as amended: whenever `renderCards` returns, the `Total Records` card
shows the field `total_records` of the feed when that field is neither absent
nor null, and `0` otherwise; the value is not computed from the records
(`renderCards` takes no filter at all). `renderCards` returns whenever the
feed is not nullish, its `records` field is absent, null, or an array without
nullish entries, and `String` converts the three summary values. -/
theorem cards_total_from_feed (feed : JsVal) :
    (∀ cs, Site.cards feed = .ok cs →
      cs.head? = some (lit "Total Records",
        coalesce (getOpt feed (lit "total_records")) (.num (lit "0")))) ∧
    (∀ cs, Site.renderCards feed = .ok cs →
      ∃ shown, toStr (coalesce (getOpt feed (lit "total_records")) (.num (lit "0"))) = .ok shown ∧
        cs.head? = some (lit "Total Records", shown)) ∧
    (∀ items, nullish feed = false →
      (nullish (getOpt feed (lit "records")) = true ∨
        (getOpt feed (lit "records") = .arr items ∧ ∀ r ∈ items, nullish r = false)) →
      (∀ v ∈ summaryValues feed, ∃ t, toStr v = .ok t) →
      ∃ cs, Site.renderCards feed = .ok cs) := by
  refine ⟨?_, ?_, ?_⟩
  · intro cs h
    obtain ⟨_, n, _, hcs⟩ := cards_ok feed cs h
    rw [hcs]
    rfl
  · intro cs h
    cases hc : Site.cards feed with
    | error e => simp [Site.renderCards, hc, bind, Except.bind] at h
    | ok cs0 =>
      obtain ⟨_, n, _, hcs0⟩ := cards_ok feed cs0 hc
      subst hcs0
      simp only [Site.renderCards, hc, bind, Except.bind, mapE, Site.cardText] at h
      cases h1 : toStr (coalesce (getOpt feed (lit "total_records")) (.num (lit "0"))) with
      | error e => simp [h1] at h
      | ok shown =>
        refine ⟨shown, rfl, ?_⟩
        simp only [h1] at h
        split at h
        · simp at h
        · next rest hrest =>
          injection h with h
          rw [← h]
          rfl
  · intro items hn hrec hvals
    obtain ⟨n, hcount⟩ := smokePassCount_returns _ items hrec
    obtain ⟨t1, h1⟩ := hvals
      (coalesce (getOpt feed (lit "total_records")) (.num (lit "0"))) (by simp [summaryValues])
    obtain ⟨t2, h2⟩ := hvals
      (coalesce (getOpt (getOpt (getOpt feed (lit "summary")) (lit "by_status")) (lit "promoted"))
        (.num (lit "0"))) (by simp [summaryValues])
    obtain ⟨t3, h3⟩ := hvals
      (coalesce (getOpt (getOpt (getOpt feed (lit "summary")) (lit "by_status")) (lit "failed"))
        (.num (lit "0"))) (by simp [summaryValues])
    obtain ⟨t4, _, h⟩ := renderCards_of_count feed n t1 t2 t3 hn hcount h1 h2 h3
    exact ⟨_, h⟩

/-- C7 at the feed `{total_records: 5, records: []}`: the card shows `5`. -/
theorem cards_total_from_feed_witness :
    (∃ shown, toStr (coalesce (getOpt (.obj [(lit "total_records", .num (lit "5")),
          (lit "records", .arr [])]) (lit "total_records")) (.num (lit "0"))) = .ok shown ∧
      [(lit "Total Records", lit "5"), (lit "Promoted", lit "0"),
          (lit "Failed", lit "0"), (lit "Smoke Pass", lit "0")].head?
        = some (lit "Total Records", shown)) ∧
    ∃ cs, Site.renderCards (.obj [(lit "total_records", .num (lit "5")),
        (lit "records", .arr [])]) = .ok cs :=
  ⟨(cards_total_from_feed _).2.1 _ (by rfl),
   (cards_total_from_feed _).2.2 [] (by rfl) (Or.inr ⟨by rfl, by simp⟩)
    (by
      intro v hv
      simp only [summaryValues, List.mem_cons, List.mem_singleton, List.not_mem_nil,
        or_false] at hv
      rcases hv with h | h | h <;> subst h <;> exact ⟨_, rfl⟩)⟩

/-- C7 as stated fails: for the feed `{total_records: 5, records: []}` the
`Total Records` card shows `5`, while the records sequence has no entry; and
for the feed `null` there is no card at all, because `renderCards` throws. -/
theorem cards_total_counterexample :
    Site.renderCards (.obj [(lit "total_records", .num (lit "5")), (lit "records", .arr [])])
      = .ok [(lit "Total Records", lit "5"), (lit "Promoted", lit "0"),
          (lit "Failed", lit "0"), (lit "Smoke Pass", lit "0")] ∧
    getOpt (.obj [(lit "total_records", .num (lit "5")), (lit "records", .arr [])])
      (lit "records") = .arr [] ∧
    lit "5" ≠ natToStr ([] : List JsVal).length ∧
    Site.renderCards .null = .error .typeError := by
  refine ⟨by rfl, by rfl, by decide, by rfl⟩

/-- C8, as amended: for every feed value that is not nullish and whose
`records` field is absent or null (every number, string, boolean and array,
and every object without such a field), `renderTable` does not throw, there is
no record row, and the table body is the row `No records found.`;
`renderCards` does not throw either and shows `0` on the `Smoke Pass` card,
provided `String` converts the three summary values of the feed, which it
always does when the feed is not an object. -/
theorem renderPass_missing_records (feed : JsVal) (hfeed : nullish feed = false)
    (hrec : (∀ props, feed ≠ .obj props) ∨ nullish (getOpt feed (lit "records")) = true) :
    nullish (getOpt feed (lit "records")) = true ∧
    Site.rows feed = .ok [] ∧
    Site.tableBody feed = .ok Site.noRecords ∧
    (∃ head tail, Site.renderTable feed = .ok (head ++ Site.noRecords ++ tail)) ∧
    ((∀ v ∈ summaryValues feed, ∃ t, toStr v = .ok t) →
      ∃ cs, Site.renderCards feed = .ok cs ∧ (lit "Smoke Pass", lit "0") ∈ cs ∧
        ∃ out, Site.renderPass feed = .ok out) ∧
    ((∀ props, feed ≠ .obj props) → ∀ v ∈ summaryValues feed, ∃ t, toStr v = .ok t) := by
  have hr : nullish (getOpt feed (lit "records")) = true := by
    rcases hrec with h | h
    · cases feed with
      | obj props => exact absurd rfl (h props)
      | _ => rfl
    · exact h
  have hcount : Site.smokePassCount (getOpt feed (lit "records")) = .ok (.num (lit "0")) := by
    cases hg : getOpt feed (lit "records") <;> simp_all [nullish, Site.smokePassCount]
  have hor : jsOr (getOpt feed (lit "records")) (.arr []) = .arr [] := by
    cases hg : getOpt feed (lit "records") <;> simp_all [nullish, jsOr, truthy]
  have hrows : Site.rows feed = .ok [] := by
    simp only [Site.rows, getProp_of_not_nullish feed _ hfeed, hor, bind, Except.bind, pure,
      Except.pure, mapE, join]
  have hbody : Site.tableBody feed = .ok Site.noRecords := by
    simp [Site.tableBody, hrows, bind, Except.bind, pure, Except.pure]
  have htable : ∃ head tail, Site.renderTable feed = .ok (head ++ Site.noRecords ++ tail) := by
    simp only [Site.renderTable, hbody, bind, Except.bind, pure, Except.pure]
    exact ⟨_, _, rfl⟩
  refine ⟨hr, hrows, hbody, htable, ?_, ?_⟩
  · intro hvals
    obtain ⟨t1, h1⟩ := hvals
      (coalesce (getOpt feed (lit "total_records")) (.num (lit "0"))) (by simp [summaryValues])
    obtain ⟨t2, h2⟩ := hvals
      (coalesce (getOpt (getOpt (getOpt feed (lit "summary")) (lit "by_status")) (lit "promoted"))
        (.num (lit "0"))) (by simp [summaryValues])
    obtain ⟨t3, h3⟩ := hvals
      (coalesce (getOpt (getOpt (getOpt feed (lit "summary")) (lit "by_status")) (lit "failed"))
        (.num (lit "0"))) (by simp [summaryValues])
    obtain ⟨t4, ht4, hcs⟩ := renderCards_of_count feed _ t1 t2 t3 hfeed hcount h1 h2 h3
    have ht4' : t4 = lit "0" := by
      have : toStr (.num (lit "0")) = .ok (lit "0") := rfl
      rw [this] at ht4
      injection ht4 with ht4
      exact ht4.symm
    subst ht4'
    obtain ⟨head, tail, ht⟩ := htable
    refine ⟨_, hcs, by simp, ([(lit "Total Records", t1), (lit "Promoted", t2),
      (lit "Failed", t3), (lit "Smoke Pass", lit "0")], head ++ Site.noRecords ++ tail), ?_⟩
    simp [Site.renderPass, hcs, ht, bind, Except.bind, pure, Except.pure]
  · intro hno v hv
    cases feed with
    | obj props => exact absurd rfl (hno props)
    | _ =>
      simp only [summaryValues, List.mem_cons, List.mem_singleton, List.not_mem_nil,
        or_false] at hv
      rcases hv with h | h | h <;> subst h <;> exact ⟨_, rfl⟩

/-- C8 at the feed `5`, a number: nothing throws and the table body is the
placeholder row. -/
theorem renderPass_missing_records_witness :
    Site.rows (.num (lit "5")) = .ok [] ∧
    Site.tableBody (.num (lit "5")) = .ok Site.noRecords ∧
    (∃ head tail, Site.renderTable (.num (lit "5")) = .ok (head ++ Site.noRecords ++ tail)) ∧
    (∃ cs, Site.renderCards (.num (lit "5")) = .ok cs ∧ (lit "Smoke Pass", lit "0") ∈ cs ∧
      ∃ out, Site.renderPass (.num (lit "5")) = .ok out) :=
  ⟨(renderPass_missing_records (.num (lit "5")) (by rfl)
      (Or.inl (fun props h => by cases h))).2.1,
   (renderPass_missing_records (.num (lit "5")) (by rfl)
      (Or.inl (fun props h => by cases h))).2.2.1,
   (renderPass_missing_records (.num (lit "5")) (by rfl)
      (Or.inl (fun props h => by cases h))).2.2.2.1,
   (renderPass_missing_records (.num (lit "5")) (by rfl)
      (Or.inl (fun props h => by cases h))).2.2.2.2.1
     ((renderPass_missing_records (.num (lit "5")) (by rfl)
        (Or.inl (fun props h => by cases h))).2.2.2.2.2 (fun props h => by cases h))⟩

/-- C8 as stated fails: for the feed `null` (not an object) `renderCards`
throws; for the feed `{records: "oops"}` (records not a sequence) both
`renderCards` and `renderTable` throw; and for the feed
`{total_records: {"toString": 1}}`, which has no records, `renderCards` throws
when it converts the total to text. In each case the render pass is aborted
and no table is written. -/
theorem renderPass_malformed_counterexample :
    Site.renderCards .null = .error .typeError ∧
    Site.renderTable .null = .error .typeError ∧
    Site.renderPass .null = .error .typeError ∧
    Site.renderCards (.obj [(lit "records", .str (lit "oops"))]) = .error .typeError ∧
    Site.renderTable (.obj [(lit "records", .str (lit "oops"))]) = .error .typeError ∧
    Site.renderPass (.obj [(lit "records", .str (lit "oops"))]) = .error .typeError ∧
    Site.renderCards (.obj [(lit "total_records", .obj [(lit "toString", .num (lit "1"))])])
      = .error .typeError ∧
    Site.renderPass (.obj [(lit "total_records", .obj [(lit "toString", .num (lit "1"))])])
      = .error .typeError :=
  ⟨by rfl, by rfl, by rfl, by rfl, by rfl, by rfl, by rfl, by rfl⟩

/-! ### The smoke pill of the pages variant -/

theorem includes_smokeStatuses (smoke : JsVal) :
    Pages.includes smokeStatuses smoke = true ↔ smoke ∈ smokeStatuses := by
  have hs : ∀ (a : JsString) (v : JsVal), sameValueZero (.str a) v = true ↔ v = .str a := by
    intro a v
    cases v with
    | str s =>
      simp only [sameValueZero, beq_iff_eq, JsVal.str.injEq]
      exact eq_comm
    | _ => simp [sameValueZero]
  simp [Pages.includes, smokeStatuses, hs]

theorem pages_smokeStatus_truthy (r : JsVal) : truthy (Pages.smokeStatus r) = true := by
  unfold Pages.smokeStatus jsOr
  split_ifs with h
  · exact h
  · rfl

theorem bind_ok {α β : Type} (x : Except JsError α) (f : α → Except JsError β) (b : β)
    (h : (x >>= f) = .ok b) : ∃ a, x = .ok a ∧ f a = .ok b := by
  cases x with
  | error e => simp [bind, Except.bind] at h
  | ok a => exact ⟨a, rfl, h⟩

theorem text_str (s : JsString) : Pages.text (.str s) = .ok (s.flatMap escapeUnitPages) := by
  simp only [Pages.text, coalesce, nullish, toStr, bind, Except.bind, pure, Except.pure,
    pagesChain_eq_flatMap]
  rfl

theorem jsOr_truthy (x d : JsVal) (hd : truthy d = true) : truthy (jsOr x d) = true := by
  unfold jsOr
  split_ifs with h
  · exact h
  · exact hd

theorem digestFromHarbor_returns (harbor : JsVal)
    (h : truthy harbor = false ∨ ∃ s, harbor = .str s) :
    ∃ d, Pages.digestFromHarbor (jsOr harbor (.str [])) = .ok (.str d) := by
  rcases h with h | ⟨s, hs⟩
  · have hor : jsOr harbor (.str []) = .str [] := by simp [jsOr, h]
    rw [hor]
    exact ⟨lit "-", rfl⟩
  · subst hs
    cases s with
    | nil => exact ⟨lit "-", rfl⟩
    | cons c cs =>
      have hor : jsOr (.str (c :: cs)) (.str []) = .str (c :: cs) := rfl
      have ht : truthy (.str (c :: cs)) = true := rfl
      rw [hor]
      unfold Pages.digestFromHarbor
      simp only [ht, Bool.not_true, Bool.false_eq_true, if_false]
      split <;> exact ⟨_, rfl⟩

theorem klass_str (smoke : JsVal) :
    ∃ k, Pages.klass smoke = .str k ∧ JsVal.str k ∈ smokeStatuses := by
  by_cases h : smoke ∈ smokeStatuses
  · have ht2 : Pages.includes [.str (lit "pass"), .str (lit "fail"), .str (lit "pending"),
        .str (lit "unknown")] smoke = true := (includes_smokeStatuses _).mpr h
    have hk : Pages.klass smoke = smoke := by simp [Pages.klass, ht2]
    rw [hk]
    have h' := h
    simp only [smokeStatuses, List.mem_cons, List.mem_singleton, List.not_mem_nil,
      or_false] at h'
    rcases h' with e | e | e | e <;> exact ⟨_, e, e ▸ h⟩
  · have hf : Pages.includes [.str (lit "pass"), .str (lit "fail"), .str (lit "pending"),
        .str (lit "unknown")] smoke = false := by
      cases hb : Pages.includes smokeStatuses smoke with
      | false => exact hb
      | true => exact absurd ((includes_smokeStatuses _).mp hb) h
    exact ⟨lit "unknown", by simp [Pages.klass, hf], by simp [smokeStatuses]⟩

theorem smokeCell_of_toStr (r : JsVal) (t : JsString)
    (h : toStr (Pages.smokeStatus r) = .ok t) :
    Pages.smokeCell r
      = .ok (lit "<td><span class=\"pill " ++ strOf (Pages.klass (Pages.smokeStatus r))
        ++ lit "\">" ++ t.flatMap escapeUnitPages ++ lit "</span></td>") := by
  obtain ⟨k, hk, _⟩ := klass_str (Pages.smokeStatus r)
  simp only [Pages.smokeCell, hk, text_of_toStr _ t (pages_smokeStatus_truthy r) h, toStr,
    strOf, bind, Except.bind, pure, Except.pure]

theorem smokeCell_error (r : JsVal) (h : toStr (Pages.smokeStatus r) = .error .typeError) :
    Pages.smokeCell r = .error .typeError := by
  obtain ⟨k, hk, _⟩ := klass_str (Pages.smokeStatus r)
  simp only [Pages.smokeCell, hk, text_error _ _ (pages_smokeStatus_truthy r) h, toStr,
    bind, Except.bind]

theorem row_ok (r : JsVal) (html : JsString) (h : Pages.row r = .ok html) :
    ∃ cell, Pages.smokeCell r = .ok cell ∧ cell <:+: html := by
  unfold Pages.row at h
  obtain ⟨_, _, h⟩ := bind_ok _ _ _ h
  obtain ⟨_, _, h⟩ := bind_ok _ _ _ h
  obtain ⟨_, _, h⟩ := bind_ok _ _ _ h
  obtain ⟨_, _, h⟩ := bind_ok _ _ _ h
  obtain ⟨_, _, h⟩ := bind_ok _ _ _ h
  obtain ⟨_, _, h⟩ := bind_ok _ _ _ h
  obtain ⟨_, _, h⟩ := bind_ok _ _ _ h
  obtain ⟨_, _, h⟩ := bind_ok _ _ _ h
  obtain ⟨_, _, h⟩ := bind_ok _ _ _ h
  obtain ⟨cell6, h6, h⟩ := bind_ok _ _ _ h
  obtain ⟨cell7, _, h⟩ := bind_ok _ _ _ h
  refine ⟨cell6, h6, ?_⟩
  injection h with h
  rw [← h]
  exact (List.suffix_append _ _).isInfix.trans
    ((List.prefix_append _ _).trans
      ((List.prefix_append _ _).trans (List.prefix_append _ _))).isInfix

theorem row_returns (r : JsVal) (hn : nullish r = false)
    (hh : truthy (getOpt (getOpt r (lit "image")) (lit "harbor")) = false ∨
      ∃ s, getOpt (getOpt r (lit "image")) (lit "harbor") = .str s)
    (hvals : ∀ v ∈ rowValues r, ∃ t, toStr v = .ok t)
    (hlinks : ∃ l, Pages.linksHtml r = .ok l) :
    ∃ html, Pages.row r = .ok html := by
  have hdash : truthy (.str (lit "-")) = true := rfl
  obtain ⟨t1, h1⟩ := hvals (jsOr (getOpt r (lit "evidenceId")) (.str (lit "-")))
    (by simp [rowValues])
  obtain ⟨t2, h2⟩ := hvals (jsOr (getOpt r (lit "service")) (.str (lit "-")))
    (by simp [rowValues])
  obtain ⟨t3, h3⟩ := hvals (jsOr (getOpt r (lit "env")) (.str (lit "-")))
    (by simp [rowValues])
  obtain ⟨t5, h5⟩ := hvals
    (jsOr (jsOr (getOpt (getOpt r (lit "deploy")) (lit "syncedAt")) (getOpt r (lit "promotedAt")))
      (.str (lit "-")))
    (by simp [rowValues])
  obtain ⟨t6, h6⟩ := hvals (Pages.smokeStatus r) (by simp [rowValues])
  obtain ⟨d, hd⟩ := digestFromHarbor_returns _ hh
  obtain ⟨l, hl⟩ := hlinks
  simp only [Pages.row, getProp_of_not_nullish r _ hn, hd, hl, text_str,
    text_of_toStr _ t1 (jsOr_truthy _ _ hdash) h1,
    text_of_toStr _ t2 (jsOr_truthy _ _ hdash) h2,
    text_of_toStr _ t3 (jsOr_truthy _ _ hdash) h3,
    text_of_toStr _ t5 (jsOr_truthy _ _ hdash) h5,
    smokeCell_of_toStr r t6 h6, bind, Except.bind, pure, Except.pure]
  exact ⟨_, rfl⟩

theorem row_error_of_smokeCell (r : JsVal) (h : Pages.smokeCell r = .error .typeError) :
    Pages.row r = .error .typeError := by
  cases hr : Pages.row r with
  | error e => cases e; rfl
  | ok html =>
    obtain ⟨cell, hc, _⟩ := row_ok r html hr
    rw [hc] at h
    exact absurd h (by simp)

/-- C9, as amended: the pill class `klass` that `render` computes is one of
`pass`, `fail`, `pending`, `unknown`: it is the resolved smoke status when that
is one of the four, and `unknown` for every other value. When `String`
converts the resolved status, the pill text is that text with `&`, `<` and `>`
escaped, and the pill cell is part of every row that is written; when `String`
cannot convert it, the row throws. A row is written for every record that is
not nullish, whose `image.harbor` is falsy or a string, whose displayed values
`String` converts and whose links are written. -/
theorem klass_one_of_four (r : JsVal) :
    Pages.klass (Pages.smokeStatus r) ∈ smokeStatuses ∧
    (Pages.smokeStatus r ∈ smokeStatuses →
      Pages.klass (Pages.smokeStatus r) = Pages.smokeStatus r) ∧
    (Pages.smokeStatus r ∉ smokeStatuses →
      Pages.klass (Pages.smokeStatus r) = .str (lit "unknown")) ∧
    (∀ t, toStr (Pages.smokeStatus r) = .ok t →
      Pages.smokeCell r
        = .ok (lit "<td><span class=\"pill " ++ strOf (Pages.klass (Pages.smokeStatus r))
          ++ lit "\">" ++ t.flatMap escapeUnitPages ++ lit "</span></td>")) ∧
    (toStr (Pages.smokeStatus r) = .error .typeError →
      Pages.smokeCell r = .error .typeError ∧ Pages.row r = .error .typeError) ∧
    (∀ html, Pages.row r = .ok html →
      ∃ cell, Pages.smokeCell r = .ok cell ∧ cell <:+: html) ∧
    (nullish r = false →
      (truthy (getOpt (getOpt r (lit "image")) (lit "harbor")) = false ∨
        ∃ s, getOpt (getOpt r (lit "image")) (lit "harbor") = .str s) →
      (∀ v ∈ rowValues r, ∃ t, toStr v = .ok t) →
      (∃ l, Pages.linksHtml r = .ok l) →
      ∃ html, Pages.row r = .ok html) := by
  have hin : Pages.smokeStatus r ∈ smokeStatuses →
      Pages.klass (Pages.smokeStatus r) = Pages.smokeStatus r := by
    intro h
    have ht2 : Pages.includes [.str (lit "pass"), .str (lit "fail"), .str (lit "pending"),
        .str (lit "unknown")] (Pages.smokeStatus r) = true := (includes_smokeStatuses _).mpr h
    simp [Pages.klass, ht2]
  have hout : Pages.smokeStatus r ∉ smokeStatuses →
      Pages.klass (Pages.smokeStatus r) = .str (lit "unknown") := by
    intro h
    have hf : Pages.includes [.str (lit "pass"), .str (lit "fail"), .str (lit "pending"),
        .str (lit "unknown")] (Pages.smokeStatus r) = false := by
      cases hb : Pages.includes smokeStatuses (Pages.smokeStatus r) with
      | false => exact hb
      | true => exact absurd ((includes_smokeStatuses _).mp hb) h
    simp [Pages.klass, hf]
  refine ⟨?_, hin, hout, smokeCell_of_toStr r, ?_, row_ok r, row_returns r⟩
  · obtain ⟨k, hk, hmem⟩ := klass_str (Pages.smokeStatus r)
    rw [hk]
    exact hmem
  · intro h
    exact ⟨smokeCell_error r h, row_error_of_smokeCell r (smokeCell_error r h)⟩

/-- C9 at a record whose smoke status is `weird`: the class is `unknown`, the
pill shows `weird`, and the row is written. -/
theorem klass_one_of_four_witness :
    Pages.klass (Pages.smokeStatus
        (.obj [(lit "tests", .obj [(lit "smoke", .obj [(lit "status", .str (lit "weird"))])])]))
      = .str (lit "unknown") ∧
    Pages.smokeCell
        (.obj [(lit "tests", .obj [(lit "smoke", .obj [(lit "status", .str (lit "weird"))])])])
      = .ok (lit "<td><span class=\"pill unknown\">weird</span></td>") ∧
    ∃ html, Pages.row
        (.obj [(lit "tests", .obj [(lit "smoke", .obj [(lit "status", .str (lit "weird"))])])])
      = .ok html :=
  ⟨(klass_one_of_four _).2.2.1 (by
      rw [show Pages.smokeStatus (.obj [(lit "tests",
          .obj [(lit "smoke", .obj [(lit "status", .str (lit "weird"))])])])
        = JsVal.str (lit "weird") from rfl]
      simp [smokeStatuses]
      decide),
   ((klass_one_of_four _).2.2.2.1 (lit "weird") (by rfl)).trans (by rfl),
   (klass_one_of_four _).2.2.2.2.2.2 (by rfl) (Or.inl (by rfl))
    (by
      intro v hv
      simp only [rowValues, List.mem_cons, List.mem_singleton, List.not_mem_nil,
        or_false] at hv
      rcases hv with h | h | h | h | h <;> subst h <;> exact ⟨_, rfl⟩)
    ⟨_, rfl⟩⟩

/-- C9 as stated fails in its second half: in the record
`{tests: {smoke: {status: {"toString": 1}}}}` the resolved status is the object
`{"toString": 1}`; the class is `unknown`, but no pill text is displayed:
`text` throws on the status, and with it the row and `render`. -/
theorem pill_text_counterexample :
    Pages.smokeStatus (.obj [(lit "tests", .obj [(lit "smoke",
        .obj [(lit "status", .obj [(lit "toString", .num (lit "1"))])])])])
      = .obj [(lit "toString", .num (lit "1"))] ∧
    Pages.klass (Pages.smokeStatus (.obj [(lit "tests", .obj [(lit "smoke",
        .obj [(lit "status", .obj [(lit "toString", .num (lit "1"))])])])]))
      = .str (lit "unknown") ∧
    Pages.text (.obj [(lit "toString", .num (lit "1"))]) = .error .typeError ∧
    Pages.row (.obj [(lit "tests", .obj [(lit "smoke",
        .obj [(lit "status", .obj [(lit "toString", .num (lit "1"))])])])])
      = .error .typeError ∧
    Pages.render [] [] [.obj [(lit "tests", .obj [(lit "smoke",
        .obj [(lit "status", .obj [(lit "toString", .num (lit "1"))])])])]]
      = .error .typeError :=
  ⟨by rfl, by rfl, by rfl, by rfl, by rfl⟩

/-! ### The environment options -/

theorem strLt_irrefl : ∀ a : JsString, Pages.strLt a a = false := by
  intro a
  induction a with
  | nil => rfl
  | cons x xs ih => simp [Pages.strLt, ih]

theorem strLt_trans : ∀ a b c : JsString,
    Pages.strLt a b = true → Pages.strLt b c = true → Pages.strLt a c = true := by
  intro a
  induction a with
  | nil =>
    intro b c hab hbc
    cases c with
    | nil => cases b <;> simp [Pages.strLt] at hbc
    | cons z zs => rfl
  | cons x xs ih =>
    intro b c hab hbc
    cases b with
    | nil => simp [Pages.strLt] at hab
    | cons y ys =>
      cases c with
      | nil => simp [Pages.strLt] at hbc
      | cons z zs =>
        simp only [Pages.strLt, Bool.or_eq_true, Bool.and_eq_true, decide_eq_true_eq,
          beq_iff_eq] at hab hbc ⊢
        rcases hab with hxy | ⟨hxy, hxs⟩
        · rcases hbc with hyz | ⟨hyz, _⟩
          · exact Or.inl (Nat.lt_trans hxy hyz)
          · exact Or.inl (hyz ▸ hxy)
        · rcases hbc with hyz | ⟨hyz, hys⟩
          · exact Or.inl (hxy ▸ hyz)
          · exact Or.inr ⟨hxy.trans hyz, ih ys zs hxs hys⟩

theorem strLt_asymm (a b : JsString) (h : Pages.strLt a b = true) : Pages.strLt b a = false := by
  cases hb : Pages.strLt b a with
  | false => rfl
  | true =>
    have := strLt_trans a b a h hb
    rw [strLt_irrefl] at this
    exact absurd this (by simp)

theorem strLt_trichotomy : ∀ a b : JsString,
    Pages.strLt a b = false → Pages.strLt b a = false → a = b := by
  intro a
  induction a with
  | nil =>
    intro b hab _
    cases b with
    | nil => rfl
    | cons y ys => simp [Pages.strLt] at hab
  | cons x xs ih =>
    intro b hab hba
    cases b with
    | nil => simp [Pages.strLt] at hba
    | cons y ys =>
      simp only [Pages.strLt, Bool.or_eq_false_iff, Bool.and_eq_false_imp, decide_eq_false_iff_not,
        beq_iff_eq] at hab hba
      have hxy : x = y := Nat.le_antisymm (Nat.not_lt.mp hba.1) (Nat.not_lt.mp hab.1)
      subst hxy
      rw [ih ys (hab.2 rfl) (hba.2 rfl)]

theorem strLt_iff_lt : ∀ a b : JsString, Pages.strLt a b = true ↔ a < b := by
  intro a
  induction a with
  | nil =>
    intro b
    cases b with
    | nil => simp [Pages.strLt]
    | cons y ys => simpa [Pages.strLt] using List.nil_lt_cons y ys
  | cons x xs ih =>
    intro b
    cases b with
    | nil => simp [Pages.strLt]
    | cons y ys =>
      simp only [Pages.strLt, Bool.or_eq_true, Bool.and_eq_true, decide_eq_true_eq, beq_iff_eq]
      constructor
      · rintro (h | ⟨h, hs⟩)
        · exact List.Lex.rel h
        · subst h
          exact List.Lex.cons ((ih ys).mp hs)
      · intro h
        cases h with
        | rel h => exact Or.inl h
        | cons hs => exact Or.inr ⟨rfl, (ih _).mpr hs⟩

theorem isStr_iff (v : JsVal) : isStr v = true ↔ ∃ s, v = .str s := by
  cases v <;> simp [isStr]

theorem sameValueZero_str (y : JsVal) (s : JsString) :
    sameValueZero y (.str s) = true ↔ y = .str s := by
  cases y <;> simp [sameValueZero]

theorem any_sameValueZero_str (acc : List JsVal) (s : JsString) :
    acc.any (fun y => sameValueZero y (.str s)) = true ↔ JsVal.str s ∈ acc := by
  rw [List.any_eq_true]
  constructor
  · rintro ⟨y, hy, hyz⟩
    rw [sameValueZero_str] at hyz
    exact hyz ▸ hy
  · intro h
    exact ⟨_, h, (sameValueZero_str _ _).mpr rfl⟩

theorem setAdd_spec (acc : List JsVal) (x : JsVal) (hx : isStr x = true) (hacc : acc.Nodup) :
    (Pages.setAdd acc x).Nodup ∧ ∀ v, v ∈ Pages.setAdd acc x ↔ v ∈ acc ∨ v = x := by
  obtain ⟨s, rfl⟩ := (isStr_iff x).mp hx
  unfold Pages.setAdd
  by_cases h : JsVal.str s ∈ acc
  · rw [if_pos ((any_sameValueZero_str acc s).mpr h)]
    exact ⟨hacc, fun v => ⟨Or.inl, fun hv => hv.elim id (fun e => e ▸ h)⟩⟩
  · rw [if_neg (by rw [any_sameValueZero_str]; exact h)]
    refine ⟨?_, by intro v; simp⟩
    rw [List.nodup_append]
    refine ⟨hacc, List.nodup_singleton _, ?_⟩
    intro a ha hb
    simp at hb
    exact h (hb ▸ ha)

theorem setFrom_fold : ∀ (xs acc : List JsVal), (∀ x ∈ xs, isStr x = true) → acc.Nodup →
    (xs.foldl Pages.setAdd acc).Nodup ∧
      ∀ v, v ∈ xs.foldl Pages.setAdd acc ↔ v ∈ acc ∨ v ∈ xs := by
  intro xs
  induction xs with
  | nil => intro acc _ hacc; exact ⟨hacc, by simp⟩
  | cons x xs ih =>
    intro acc hxs hacc
    obtain ⟨hn, hm⟩ := setAdd_spec acc x (hxs x (List.mem_cons_self x xs)) hacc
    obtain ⟨hn2, hm2⟩ := ih (Pages.setAdd acc x) (fun y hy => hxs y (List.mem_cons_of_mem x hy)) hn
    refine ⟨hn2, ?_⟩
    intro v
    rw [List.foldl_cons, hm2, hm, List.mem_cons]
    tauto

theorem strOf_injective (a b : JsVal) (ha : isStr a = true) (hb : isStr b = true)
    (h : strOf a = strOf b) : a = b := by
  obtain ⟨s, rfl⟩ := (isStr_iff a).mp ha
  obtain ⟨t, rfl⟩ := (isStr_iff b).mp hb
  exact congrArg JsVal.str h

theorem sortInsert_spec (x : JsVal) (hx : isStr x = true) :
    ∀ ys : List JsVal, (∀ y ∈ ys, isStr y = true) →
      ∃ zs, Pages.sortInsert x ys = .ok zs ∧ zs.Perm (x :: ys) ∧
        (ys.Pairwise (fun a b => Pages.strLt (strOf b) (strOf a) = false) →
          zs.Pairwise (fun a b => Pages.strLt (strOf b) (strOf a) = false)) := by
  obtain ⟨s, rfl⟩ := (isStr_iff x).mp hx
  intro ys
  induction ys with
  | nil => intro _; exact ⟨[.str s], rfl, List.Perm.refl _, fun _ => by simp⟩
  | cons y ys ih =>
    intro hys
    obtain ⟨t, rfl⟩ := (isStr_iff y).mp (hys y (List.mem_cons_self y ys))
    have hcmp : Pages.sortBefore (.str s) (.str t) = .ok (Pages.strLt s t) := rfl
    cases hst : Pages.strLt s t with
    | true =>
      refine ⟨.str s :: .str t :: ys, by simp [Pages.sortInsert, hcmp, hst],
        List.Perm.refl _, ?_⟩
      intro hp
      obtain ⟨hy, hrest⟩ := List.pairwise_cons.mp hp
      rw [List.pairwise_cons]
      refine ⟨?_, hp⟩
      intro z hz
      rcases List.mem_cons.mp hz with hz | hz
      · subst hz
        exact strLt_asymm s t hst
      · have hzt : Pages.strLt (strOf z) t = false := hy _ hz
        show Pages.strLt (strOf z) s = false
        cases hus : Pages.strLt (strOf z) s with
        | false => rfl
        | true =>
          rw [strLt_trans (strOf z) s t hus hst] at hzt
          exact absurd hzt (by simp)
    | false =>
      obtain ⟨rest, hrest, hperm, hsorted⟩ := ih (fun z hz => hys z (List.mem_cons_of_mem _ hz))
      refine ⟨.str t :: rest, by simp [Pages.sortInsert, hcmp, hst, hrest],
        (List.Perm.cons _ hperm).trans (List.Perm.swap _ _ ys), ?_⟩
      intro hp
      obtain ⟨hy, hys2⟩ := List.pairwise_cons.mp hp
      rw [List.pairwise_cons]
      refine ⟨?_, hsorted hys2⟩
      intro z hz
      rcases List.mem_cons.mp (hperm.mem_iff.mp hz) with hz | hz
      · subst hz
        exact hst
      · exact hy z hz

theorem sortInto_spec : ∀ (xs acc : List JsVal), (∀ x ∈ xs, isStr x = true) →
    (∀ y ∈ acc, isStr y = true) →
    ∃ zs, Pages.sortInto acc xs = .ok zs ∧ zs.Perm (acc ++ xs) ∧
      (acc.Pairwise (fun a b => Pages.strLt (strOf b) (strOf a) = false) →
        zs.Pairwise (fun a b => Pages.strLt (strOf b) (strOf a) = false)) := by
  intro xs
  induction xs with
  | nil => intro acc _ _; exact ⟨acc, rfl, by simp, fun h => h⟩
  | cons x xs ih =>
    intro acc hxs hacc
    have hx := hxs x (List.mem_cons_self x xs)
    obtain ⟨next, hnext, hperm, hsorted⟩ := sortInsert_spec x hx acc hacc
    have hnextstr : ∀ y ∈ next, isStr y = true := by
      intro y hy
      rcases List.mem_cons.mp (hperm.mem_iff.mp hy) with h | h
      · exact h ▸ hx
      · exact hacc y h
    obtain ⟨zs, hzs, hperm2, hsorted2⟩ :=
      ih next (fun y hy => hxs y (List.mem_cons_of_mem x hy)) hnextstr
    refine ⟨zs, by simp [Pages.sortInto, hnext, hzs], ?_, fun h => hsorted2 (hsorted h)⟩
    exact hperm2.trans ((hperm.append_right xs).trans List.perm_middle.symm)

theorem mapE_toStr_str : ∀ zs : List JsVal, (∀ z ∈ zs, isStr z = true) →
    mapE toStr zs = .ok (zs.map strOf) := by
  intro zs
  induction zs with
  | nil => intro _; rfl
  | cons z zs ih =>
    intro h
    obtain ⟨s, rfl⟩ := (isStr_iff z).mp (h z (List.mem_cons_self z zs))
    simp [mapE, toStr, strOf, ih (fun y hy => h y (List.mem_cons_of_mem _ hy))]

theorem mapE_getProp (k : JsString) : ∀ R : List JsVal, (∀ r ∈ R, nullish r = false) →
    mapE (fun r => getProp r k) R = .ok (R.map (fun r => getOpt r k)) := by
  intro R
  induction R with
  | nil => intro _; rfl
  | cons r rs ih =>
    intro h
    simp [mapE, getProp_of_not_nullish r k (h r (List.mem_cons_self r rs)),
      ih (fun x hx => h x (List.mem_cons_of_mem r hx))]

/-- C10, as amended: when no loaded record is null or undefined and every
`env` field is a string or falsy (absent, null, empty), the options that
`fillEnvOptions` appends are exactly the distinct non-empty `env` values:
every option is the `env` of a record, every non-empty `env` is an option, no
option occurs twice, and every option is smaller, in the order of strings by
code units, than every option after it. -/
theorem fillEnvOptions_distinct_sorted (R : List JsVal)
    (hrec : ∀ r ∈ R, nullish r = false)
    (henv : ∀ r ∈ R, truthy (getOpt r (lit "env")) = false ∨
      ∃ s, getOpt r (lit "env") = .str s) :
    ∃ opts, Pages.fillEnvOptions R = .ok opts ∧
      (∀ o, o ∈ opts ↔ o ≠ [] ∧ ∃ r ∈ R, getOpt r (lit "env") = .str o) ∧
      opts.Nodup ∧
      opts.Pairwise (fun a b => Pages.strLt a b = true) ∧
      opts.Pairwise (fun a b => a < b) := by
  let L0 := (R.map (fun r => getOpt r (lit "env"))).filter truthy
  have hL0 : ∀ v ∈ L0, isStr v = true := by
    intro v hv
    obtain ⟨hv1, hv2⟩ := List.mem_filter.mp hv
    obtain ⟨r, hr, rfl⟩ := List.mem_map.mp hv1
    rcases henv r hr with h | ⟨s, hs⟩
    · rw [h] at hv2; exact absurd hv2 (by simp)
    · rw [hs]; rfl
  obtain ⟨hn1, hm1⟩ := setFrom_fold L0 [] hL0 List.nodup_nil
  have hstr1 : ∀ v ∈ Pages.setFrom L0, isStr v = true := by
    intro v hv
    rcases (hm1 v).mp hv with h | h
    · simp at h
    · exact hL0 v h
  obtain ⟨L2, hsort, hperm, hsorted⟩ := sortInto_spec (Pages.setFrom L0) [] hstr1 (by simp)
  have hsorted := hsorted List.Pairwise.nil
  have hperm : L2.Perm (Pages.setFrom L0) := by simpa using hperm
  have hmem2 : ∀ v, v ∈ L2 ↔ v ∈ L0 := by
    intro v
    rw [hperm.mem_iff, show Pages.setFrom L0 = L0.foldl Pages.setAdd [] from rfl, hm1]
    simp
  have hstr2 : ∀ v ∈ L2, isStr v = true := fun v hv => hL0 v ((hmem2 v).mp hv)
  have hn2 : L2.Nodup := hperm.nodup_iff.mpr hn1
  have hstrict : L2.Pairwise (fun a b => Pages.strLt (strOf a) (strOf b) = true) := by
    refine List.Pairwise.imp_of_mem ?_ (hsorted.and hn2)
    intro a b ha hb hab
    obtain ⟨h1, h2⟩ := hab
    cases hst : Pages.strLt (strOf a) (strOf b) with
    | true => rfl
    | false =>
      exact absurd (strOf_injective a b (hstr2 a ha) (hstr2 b hb)
        (strLt_trichotomy _ _ hst h1)) h2
  have hlt : (L2.map strOf).Pairwise (fun a b => Pages.strLt a b = true) :=
    List.pairwise_map.mpr hstrict
  refine ⟨L2.map strOf, ?_, ?_, ?_, hlt, ?_⟩
  · have hsort2 : Pages.sort (List.filter truthy (R.map (fun r => getOpt r (lit "env"))) |>
        Pages.setFrom) = .ok L2 := hsort
    simp only [Pages.fillEnvOptions, mapE_getProp _ R hrec, bind, Except.bind, hsort2,
      mapE_toStr_str L2 hstr2]
  · intro o
    rw [List.mem_map]
    constructor
    · rintro ⟨v, hv, rfl⟩
      have hv0 := (hmem2 v).mp hv
      obtain ⟨hv1, hv2⟩ := List.mem_filter.mp hv0
      obtain ⟨r, hr, hrv⟩ := List.mem_map.mp hv1
      obtain ⟨s, rfl⟩ := (isStr_iff v).mp (hL0 v hv0)
      refine ⟨?_, r, hr, hrv⟩
      intro he
      have he2 : s = [] := he
      rw [he2] at hv2
      exact absurd hv2 (by simp [truthy])
    · rintro ⟨ho, r, hr, hro⟩
      refine ⟨.str o, (hmem2 _).mpr (List.mem_filter.mpr ⟨List.mem_map.mpr ⟨r, hr, hro⟩, ?_⟩),
        rfl⟩
      cases o with
      | nil => exact absurd rfl ho
      | cons c cs => rfl
  · refine List.Pairwise.imp ?_ hlt
    intro a b hab he
    rw [he, strLt_irrefl] at hab
    exact absurd hab (by simp)
  · exact List.Pairwise.imp (fun {a b} h => (strLt_iff_lt a b).mp h) hlt

/-- C10 at five records with the environments `prod`, `dev`, none, `prod` and
the empty string: the options are `dev` and `prod`. -/
theorem fillEnvOptions_distinct_sorted_witness :
    Pages.fillEnvOptions [.obj [(lit "env", .str (lit "prod"))],
        .obj [(lit "env", .str (lit "dev"))], .obj [],
        .obj [(lit "env", .str (lit "prod"))], .obj [(lit "env", .str [])]]
      = .ok [lit "dev", lit "prod"] ∧
    ∃ opts, Pages.fillEnvOptions [.obj [(lit "env", .str (lit "prod"))],
        .obj [(lit "env", .str (lit "dev"))], .obj [],
        .obj [(lit "env", .str (lit "prod"))], .obj [(lit "env", .str [])]] = .ok opts ∧
      (∀ o, o ∈ opts ↔ o ≠ [] ∧ ∃ r ∈ [JsVal.obj [(lit "env", .str (lit "prod"))],
        .obj [(lit "env", .str (lit "dev"))], .obj [],
        .obj [(lit "env", .str (lit "prod"))], .obj [(lit "env", .str [])]],
          getOpt r (lit "env") = .str o) ∧
      opts.Nodup ∧
      opts.Pairwise (fun a b => Pages.strLt a b = true) ∧
      opts.Pairwise (fun a b => a < b) :=
  ⟨by rfl,
   fillEnvOptions_distinct_sorted _
    (by
      intro r hr
      simp at hr
      rcases hr with h | h | h | h | h <;> subst h <;> rfl)
    (by
      intro r hr
      simp at hr
      rcases hr with h | h | h | h | h <;> subst h
      · exact Or.inr ⟨_, rfl⟩
      · exact Or.inr ⟨_, rfl⟩
      · exact Or.inl rfl
      · exact Or.inr ⟨_, rfl⟩
      · exact Or.inl rfl)⟩

/-- C10 as stated fails: for the records `{env: 10}` and `{env: "10"}` the
number and the string are different values of the set, and the options are
`10` and `10`, the same option twice and not in increasing order; and for the
records `{env: "prod"}` and `null` the function throws and computes no
options. -/
theorem fillEnvOptions_counterexample :
    Pages.fillEnvOptions [.obj [(lit "env", .num (lit "10"))],
        .obj [(lit "env", .str (lit "10"))]] = .ok [lit "10", lit "10"] ∧
    ¬ [lit "10", lit "10"].Nodup ∧
    ¬ [lit "10", lit "10"].Pairwise (fun a b => Pages.strLt a b = true) ∧
    Pages.fillEnvOptions [.obj [(lit "env", .str (lit "prod"))], .null]
      = .error .typeError :=
  ⟨by rfl, by decide, by decide, by rfl⟩

end Ljwx
